import Mathlib

/-!
Verification of the orbit asynchronous rotating log pipeline (package `logx`,
with its collaborators `errorx`, `tracex`, `cctx`).

The development shallowly embeds the Go source:

* `Config` mirrors `logx.Config` (`config.go`); the Go field `Rotate *RotateMode`
  is an `Option RotateMode` (`none` models a nil pointer).
* `HState` mirrors the mutable fields of the dual-stream `handler`
  (`infoFile`, `warnFile`, `infoSize`, `warnSize`, `curHr`).
* `FS` models the portion of the operating-system state the handler touches:
  regular files in the log directory (base name and modification time),
  symlinks, and the multiset of open file handles.  Fallible OS calls
  (`MkdirAll`, `OpenFile`, `ReadDir`, `WriteString`) are driven by explicit
  Boolean oracles in `OpenEnv`/`WEnv`.
* Go `time.Time` instants are natural numbers of nanoseconds; `Truncate(Hour)`
  is division by `nsPerHour`.  The `20060102...` format strings are modelled by
  the decimal rendering of the truncated value, which preserves the only
  property the code relies on: distinct truncated instants yield distinct
  file names, and the two granularities are fixed per run by the rotate mode.
* `rotateIfNeededLocked`, `writeRecord`, `Handle`, `cleanupOldFiles`,
  `buildFilename`, `colorLine` are transliterated from
  `handler.go` (dual-stream version); `encodeLog` from `handler.go`'s encoder;
  `trimFuncName` from `caller.go`.
-/

namespace Orbit

/-! ### Severity levels (log/slog)

`slog.Level` is an integer; Debug = -4, Info = 0, Warn = 4, Error = 8. -/

abbrev Level := Int

def levelDebug : Level := -4
def levelInfo : Level := 0
def levelWarn : Level := 4
def levelError : Level := 8

/-! ### Rotation mode and configuration (`config.go`) -/

inductive RotateMode where
  | hourly
  | size
deriving DecidableEq, Repr

/-- `logx.Config`.  `rotate` is `*RotateMode` in Go: `none` is a nil pointer.
Numeric Go `int` fields stay `Int`. -/
structure Config where
  appName : String
  level : Level
  logDir : String
  consoleEnabled : Bool
  consoleColored : Bool
  rotate : Option RotateMode
  maxFileSizeMB : Int
  maxBackups : Int
  queueSize : Int
deriving DecidableEq, Repr

/-! ### Time -/

def nsPerSec : Nat := 1000000000
def nsPerHour : Nat := 3600 * nsPerSec

/-- `now.Truncate(time.Hour)` as an hour index. -/
def hourOf (t : Nat) : Nat := t / nsPerHour

/-- `now.Format("20060102150405")` modelled as the decimal second index. -/
def fmtSec (t : Nat) : String := toString (t / nsPerSec)

/-- `now.Format("2006010215")` modelled as the decimal hour index. -/
def fmtHour (t : Nat) : String := toString (hourOf t)

/-! ### Handler state (mutable fields of `handler`)

`infoFile`/`warnFile` hold the base name of the open file (`none` = nil);
`curHr` is `none` while `h.curHr.IsZero()`, otherwise the stored hour index. -/

structure HState where
  infoFile : Option String
  warnFile : Option String
  infoSize : Int
  warnSize : Int
  curHr : Option Nat
deriving DecidableEq, Repr

/-- Fresh handler state, as allocated by `newHandler`. -/
def HState.init : HState :=
  { infoFile := none, warnFile := none, infoSize := 0, warnSize := 0, curHr := none }

/-! ### Rotation decision (`rotateIfNeededLocked`, lines 160–198)

The decision phase computes the `needNew` / `needWarnNew` flags and performs
the in-place counter/epoch updates of the Go `switch`. -/

structure RotDecision where
  needNew : Bool
  needWarnNew : Bool
  st : HState
deriving DecidableEq, Repr

def rotateDecision (mode : RotateMode) (cfg : Config) (st : HState) (now : Nat) :
    RotDecision :=
  match mode with
  | .hourly =>
    -- hour := now.Truncate(time.Hour)
    -- if h.curHr.IsZero() || !hour.Equal(h.curHr) { ... }
    let hour := hourOf now
    -- the epoch branch never touches the file fields, so the two
    -- `h.infoFile == nil` / `h.warnFile == nil` tests read `st` unchanged
    let d : RotDecision :=
      if st.curHr = none ∨ st.curHr ≠ some hour then
        { needNew := true, needWarnNew := true,
          st := { st with curHr := some hour, infoSize := 0, warnSize := 0 } }
      else
        { needNew := false, needWarnNew := false, st := st }
    let d := if st.infoFile = none then { d with needNew := true } else d
    if st.warnFile = none then { d with needWarnNew := true } else d
  | .size =>
    -- no step of this branch mutates a field before it is read: the nil
    -- tests set only flags, and the info reset does not touch `warnSize`
    let d : RotDecision := { needNew := false, needWarnNew := false, st := st }
    let d := if st.infoFile = none then { d with needNew := true } else d
    let d := if st.warnFile = none then { d with needWarnNew := true } else d
    if 0 < cfg.maxFileSizeMB then
      let limit : Int := cfg.maxFileSizeMB * 1024 * 1024
      let d :=
        if limit ≤ st.infoSize then
          { d with needNew := true, st := { d.st with infoSize := 0 } }
        else d
      if limit ≤ st.warnSize then
        { d with needWarnNew := true, st := { d.st with warnSize := 0 } }
      else d
    else d

/-! ### File names (`buildFilename`, `infoPrefix`, `warnPrefix`)

Names are kept at base-name granularity: every file the handler touches lives
in the single configured log directory, and `filepath.Base(filepath.Join(dir,
b)) = b` for the slash-free base names the handler builds. -/

/-- Timestamp part of `buildFilename`: to the second for `RotateSize`,
to the hour otherwise. -/
def buildTs (mode : RotateMode) (now : Nat) : String :=
  if mode = .size then fmtSec now else fmtHour now

/-- Base name built by `buildFilename` (`warn = true` gives the `.wf` file). -/
def buildBase (cfg : Config) (mode : RotateMode) (now : Nat) (warn : Bool) : String :=
  if warn then cfg.appName ++ ".wf-" ++ buildTs mode now ++ ".log"
  else cfg.appName ++ "-" ++ buildTs mode now ++ ".log"

/-- `h.infoPrefix()`. -/
def infoPre (cfg : Config) : String := cfg.appName ++ "-"

/-- `h.warnPrefix()`. -/
def warnPre (cfg : Config) : String := cfg.appName ++ ".wf-"

/-- `strings.HasPrefix s pre`. -/
def goHasPrefix (s pre : String) : Bool := pre.data.isPrefixOf s.data

/-- `strings.HasSuffix s suf`. -/
def goHasSuffix (s suf : String) : Bool := suf.data.isSuffixOf s.data

/-! ### Retention sweeper (`cleanupOldFiles`, lines 278–322)

A directory entry as returned by `os.ReadDir`; `info = none` models a failing
`e.Info()` call. -/

structure DirEntry where
  name : String
  isDir : Bool
  info : Option Nat
deriving DecidableEq, Repr

/-- The `fi{name, t}` records `cleanupOldFiles` accumulates.  Names stay at
base-name granularity (the Go code joins and re-splits the directory). -/
structure Fi where
  name : String
  t : Nat
deriving DecidableEq, Repr

/-- The entry filter of `cleanupOldFiles`: skip directories, skip names not
matching prefix+suffix, skip entries whose `Info()` fails. -/
def collectFiles (pre suf : String) (entries : List DirEntry) : List Fi :=
  entries.filterMap fun e =>
    if e.isDir then none
    else if ¬ (goHasPrefix e.name pre ∧ goHasSuffix e.name suf) then none
    else e.info.map fun t => { name := e.name, t := t }

/-- The non-strict companion of the comparator
`sort.Slice(files, files[i].t.After(files[j].t))`: `a` may precede `b` when
`b.t ≤ a.t`, so later modification times come first. -/
def timeGE (a b : Fi) : Prop := b.t ≤ a.t

instance : DecidableRel timeGE := fun a b => Nat.decLe b.t a.t

instance : IsTotal Fi timeGE := ⟨fun a b => Nat.le_total b.t a.t⟩

instance : IsTrans Fi timeGE := ⟨fun _ _ _ h1 h2 => Nat.le_trans h2 h1⟩

/-- `sort.Slice` produces some ordering sorted by the comparator; on the
distinct-time inputs the claims quantify over that ordering is unique, so any
correct sort — modelled here as insertion sort — is the one Go computes. -/
def sortByTimeDesc (l : List Fi) : List Fi := l.insertionSort timeGE

/-- `cleanupOldFiles` - returns the base names it removes.  `listing = none`
models an `os.ReadDir` failure (reported, nothing deleted).  `maxBackups` is a
`Nat`: the rotation call site guards the call with `cfg.MaxBackups > 0`. -/
def cleanupOldFiles (maxBackups : Nat) (pre : String)
    (listing : Option (List DirEntry)) : List String :=
  match listing with
  | none => []
  | some entries =>
    let suf := ".log"
    let files := collectFiles pre suf entries
    if files.length ≤ maxBackups then []
    else ((sortByTimeDesc files).drop maxBackups).map (·.name)

/-! ### File-system model

`files` are the regular files of the log directory (base name, modification
time); `links` the symlinks (link name ↦ target base name); `openHandles` the
OS-level handles the process holds (a name appears once per open handle).
Symlinks are kept out of `files`: the two links the handler maintains
(`app.log`, `app.wf.log`) can never match the `app-`/`app.wf-` prefixes
`cleanupOldFiles` scans for, so their absence from the `ReadDir` model does
not change which files a sweep removes. -/

structure FS where
  files : List (String × Nat)
  links : List (String × String)
  openHandles : List String
deriving DecidableEq, Repr

def FS.fileNames (fs : FS) : List String := fs.files.map (·.1)

/-- Modification time of `f`, when present. -/
def FS.timeOf (fs : FS) (f : String) : Option Nat :=
  (fs.files.find? fun p => p.1 == f).map (·.2)

/-- Target of symlink `l`, when present. -/
def FS.linkOf (fs : FS) (l : String) : Option String :=
  (fs.links.find? fun p => p.1 == l).map (·.2)

/-- `os.OpenFile(name, O_CREATE|O_APPEND|O_WRONLY, ...)` on success: a handle
is acquired; the file is created with modification time `now` unless it
already exists (opening for append does not touch an existing file). -/
def FS.openCreate (fs : FS) (name : String) (now : Nat) : FS :=
  { fs with
    files := if fs.files.any (fun p => p.1 == name) then fs.files
             else (name, now) :: fs.files
    openHandles := name :: fs.openHandles }

/-- `file.Close()`: the handle is released. -/
def FS.closeFile (fs : FS) (name : String) : FS :=
  { fs with openHandles := fs.openHandles.erase name }

/-- `os.Remove(link)` followed by `os.Symlink(target, link)`. -/
def FS.setLink (fs : FS) (l target : String) : FS :=
  { fs with links := (l, target) :: fs.links.filter fun p => ! (p.1 == l) }

/-- A successful `WriteString` to open file `name` at time `now`: the file's
modification time becomes `now`. -/
def FS.writeFile (fs : FS) (name : String) (now : Nat) : FS :=
  { fs with files := fs.files.map fun p => if p.1 == name then (p.1, now) else p }

/-- Remove the files whose names are in `del`. -/
def FS.removeAll (fs : FS) (del : List String) : FS :=
  { fs with files := fs.files.filter fun p => ! del.contains p.1 }

/-- The `os.ReadDir` view of the log directory (see `FS` on symlinks). -/
def FS.entries (fs : FS) : List DirEntry :=
  fs.files.map fun p => { name := p.1, isDir := false, info := some p.2 }

/-! ### Full rotation (`rotateIfNeededLocked`, lines 160–249) -/

/-- Failures surfaced by the handler code. `nilDeref` models the Go panic of
`switch *h.cfg.Rotate` on a nil `Rotate` pointer. -/
inductive PErr where
  | nilDeref
  | osError
  | writeError
deriving DecidableEq, Repr

/-- Success/failure oracle for the OS calls of one rotation. -/
structure OpenEnv where
  mkdirOk : Bool
  infoOpenOk : Bool
  warnOpenOk : Bool
  readDirOk : Bool
deriving DecidableEq, Repr

structure RtOut where
  st : HState
  fs : FS
  err : Option PErr
deriving DecidableEq, Repr

/-- Both retention sweeps performed at the end of a successful rotation
(`if h.cfg.MaxBackups > 0 { cleanup(infoPrefix); cleanup(warnPrefix) }`). -/
def applyCleanups (cfg : Config) (env : OpenEnv) (fs : FS) : FS :=
  if 0 < cfg.maxBackups then
    let listing := fun fs' : FS => if env.readDirOk then some fs'.entries else none
    let fs1 := fs.removeAll
      (cleanupOldFiles cfg.maxBackups.toNat (infoPre cfg) (listing fs))
    fs1.removeAll
      (cleanupOldFiles cfg.maxBackups.toNat (warnPre cfg) (listing fs1))
  else fs

/-- `rotateIfNeededLocked`.  The Go method mutates the handler and returns an
error; here it returns the final handler state, file system, and error. -/
def rotateIfNeededLocked (cfg : Config) (env : OpenEnv) (st : HState) (fs : FS)
    (now : Nat) : RtOut :=
  match cfg.rotate with
  | none => { st := st, fs := fs, err := some .nilDeref }
  | some mode =>
    let d := rotateDecision mode cfg st now
    if ¬ d.needNew ∧ ¬ d.needWarnNew then { st := d.st, fs := fs, err := none }
    else
      -- close the old files
      let (st, fs) :=
        if d.needNew then
          match d.st.infoFile with
          | some f => ({ d.st with infoFile := none }, fs.closeFile f)
          | none => (d.st, fs)
        else (d.st, fs)
      let (st, fs) :=
        if d.needWarnNew then
          match st.warnFile with
          | some f => ({ st with warnFile := none }, fs.closeFile f)
          | none => (st, fs)
        else (st, fs)
      if ¬ env.mkdirOk then { st := st, fs := fs, err := some .osError }
      else
        -- open the new info file, update its symlink
        let infoStep : Option (HState × FS) :=
          if d.needNew then
            if env.infoOpenOk then
              let name := buildBase cfg mode now false
              let fs := fs.openCreate name now
              some ({ st with infoFile := some name },
                    fs.setLink (cfg.appName ++ ".log") name)
            else none
          else some (st, fs)
        match infoStep with
        | none => { st := st, fs := fs, err := some .osError }
        | some (st, fs) =>
          -- open the new warn file, update its symlink
          let warnStep : Option (HState × FS) :=
            if d.needWarnNew then
              if env.warnOpenOk then
                let name := buildBase cfg mode now true
                let fs := fs.openCreate name now
                some ({ st with warnFile := some name },
                      fs.setLink (cfg.appName ++ ".wf.log") name)
              else none
            else some (st, fs)
          match warnStep with
          | none => { st := st, fs := fs, err := some .osError }
          | some (st, fs) =>
            { st := st, fs := applyCleanups cfg env fs, err := none }

/-! ### Records and the write path (`writeRecord`, lines 101–157) -/

/-- A dequeued `slog.Record`.  `line` is the JSON line `writeRecord` builds
from it (`json.Marshal(data) + "\n"`); the construction of the line itself is
the encoder's concern (`encodeAttrs` below models the attribute set). -/
structure Rec where
  level : Level
  line : String
deriving DecidableEq, Repr

/-- `colorLine`: prefix the JSON line with a colored severity tag. -/
def colorLine (r : Rec) : String :=
  if r.level = levelDebug then "\x1b[36m[DEBUG]\x1b[0m " ++ r.line
  else if r.level = levelInfo then "\x1b[32m[INFO ]\x1b[0m " ++ r.line
  else if r.level = levelWarn then "\x1b[33m[WARN ]\x1b[0m " ++ r.line
  else if r.level = levelError then "\x1b[31m[ERROR]\x1b[0m " ++ r.line
  else "[" ++ toString r.level ++ "] " ++ r.line

/-- Oracle for one `writeRecord` call: the rotation oracle plus the outcome of
`f.WriteString(line)`. -/
structure WEnv where
  rot : OpenEnv
  writeOk : Bool
deriving DecidableEq, Repr

/-- Result of `writeRecord`: final handler/OS state, returned error, the lines
printed to the console, and the (file, line) writes that reached a file. -/
structure WOut where
  st : HState
  fs : FS
  err : Option PErr
  console : List String
  written : List (String × String)
deriving DecidableEq, Repr

/-- `writeRecord`: rotate if needed; on rotation error return it (nothing is
written or mirrored).  Pick the warn file for `r.Level >= slog.LevelWarn`,
else the info file; if that file is open, write the line — on write error
return it (the size counter is not advanced and the console is not reached) —
and add the byte count to that stream's counter.  Finally mirror to the
console when enabled. -/
def writeRecord (cfg : Config) (env : WEnv) (st : HState) (fs : FS)
    (r : Rec) (now : Nat) : WOut :=
  let rot := rotateIfNeededLocked cfg env.rot st fs now
  match rot.err with
  | some e => { st := rot.st, fs := rot.fs, err := some e, console := [], written := [] }
  | none =>
    let st := rot.st
    let fs := rot.fs
    let f := if levelWarn ≤ r.level then st.warnFile else st.infoFile
    let afterWrite : Option (HState × FS × List (String × String)) :=
      match f with
      | some name =>
        if env.writeOk then
          let n : Int := (r.line.length : Int)
          let fs := fs.writeFile name now
          let st :=
            if levelWarn ≤ r.level then { st with warnSize := st.warnSize + n }
            else { st with infoSize := st.infoSize + n }
          some (st, fs, [(name, r.line)])
        else none
      | none => some (st, fs, [])
    match afterWrite with
    | none => { st := st, fs := fs, err := some .writeError, console := [], written := [] }
    | some (st, fs, written) =>
      let console :=
        if cfg.consoleEnabled then
          if cfg.consoleColored then [colorLine r] else [r.line]
        else []
      { st := st, fs := fs, err := none, console := console, written := written }

/-! ### Ingestion queue (`Handle`, lines 69–77)

`h.entries` is a buffered channel of capacity `cfg.QueueSize` (defaulted to
10000 by `newHandler` when ≤ 0).  `Handle` clones the record and performs a
`select` with a `default` branch: it never waits and always returns `nil`. -/

/-- The effective queue capacity chosen by `newHandler`. -/
def effQueueSize (cfg : Config) : Int :=
  if cfg.queueSize ≤ 0 then 10000 else cfg.queueSize

structure HandleOut where
  queue : List Rec
  dropped : Bool
  diag : List String
  err : Option PErr
deriving DecidableEq, Repr

/-- `Handle(_, r)`: enqueue if the buffered channel has room, otherwise drop
the record and print a diagnostic; always return `nil`. -/
def Handle (capacity : Int) (queue : List Rec) (r : Rec) : HandleOut :=
  if (queue.length : Int) < capacity then
    { queue := queue ++ [r], dropped := false, diag := [], err := none }
  else
    { queue := queue, dropped := true,
      diag := ["log queue full, drop log"], err := none }

/-! ### The writer loop as a trace (`writeLoop`, lines 92–98)

`writeLoop` processes one record per iteration, reporting failures and
continuing.  A trace is a list of steps; each carries the dequeued record, the
OS oracle for that iteration, and the wall-clock instant of the `time.Now()`
call in `writeRecord`. -/

structure StepIn where
  env : WEnv
  record : Rec
  now : Nat
deriving DecidableEq, Repr

/-- Fold of `writeLoop`: each iteration runs `writeRecord` on the current
state and continues with its result whether or not it returned an error. -/
def runLoop (cfg : Config) (st : HState) (fs : FS) : List StepIn → HState × FS
  | [] => (st, fs)
  | s :: rest =>
    let out := writeRecord cfg s.env st fs s.record s.now
    runLoop cfg out.st out.fs rest

/-! ### Event encoder (`encodeLog`, handler.go lines 293–357)

`slog.Attr` values: the encoder only builds string, int and bool attributes
itself; error fields, context-bag values and extra key/value arguments carry
arbitrary Go values, embedded as `AttrVal.any` with an opaque payload tag. -/

inductive AttrVal where
  | str (v : String)
  | int (v : Int)
  | bool (v : Bool)
  | any (payload : String)
deriving DecidableEq, Repr

/-- `errorx.CodeEntry`: a numeric code plus default wording. -/
structure CodeEntry where
  code : Int
  message : String
deriving DecidableEq, Repr

/-- `errorx.Error` (wrap.go): code, type, success flag, service, override
message and custom fields (`Cause` never reaches the encoder's attributes). -/
structure ErrX where
  codeE : CodeEntry
  typeE : CodeEntry
  success : Bool
  service : CodeEntry
  message : String
  fields : List (String × AttrVal)
deriving DecidableEq, Repr

/-- The dynamic type of the `msg any` argument, as discriminated by the
encoder's type switch: a `*errorx.Error`, some other `error` (only its
rendered `Error()` text is consumed), or any other value. -/
inductive MsgVal where
  | errx (e : ErrX)
  | plainError (rendered : String)
  | other (v : AttrVal)
deriving DecidableEq, Repr

/-- Caller info as produced by `getCaller`. -/
structure CallerInfo where
  file : String
  line : Int
  funcName : String
deriving DecidableEq, Repr

/-- A `tracex` span: trace and span identifiers. -/
structure SpanInfo where
  traceID : String
  spanID : String
deriving DecidableEq, Repr

/-- The `for i := 0; i+1 < len(kv); i += 2` loop: pairs with a non-string key
at the even position are skipped (the loop still advances by two). -/
def kvPairs : List AttrVal → List (String × AttrVal)
  | .str k :: v :: rest => (k, v) :: kvPairs rest
  | _ :: _ :: rest => kvPairs rest
  | _ => []

/-- The attributes derived from the `msg` argument by the type switch. -/
def msgAttrs : MsgVal → List (String × AttrVal)
  | .errx e =>
    [("code", .int e.codeE.code),
     ("code_msg", .str e.codeE.message),
     ("err_type", .str e.typeE.message),
     ("service", .str e.service.message),
     ("success", .bool e.success)]
    ++ e.fields
    ++ (if e.message ≠ "" then [("msg", .str e.message)] else [])
  | .plainError rendered => [("error", .str rendered)]
  | .other v => [("msg", v)]

/-- `encodeLog`: tag (when non-empty), caller file/line/function, trace
identifiers (when a span is in the context), message-derived attributes,
the ambient `cctx` bag, then well-formed extra key/value pairs. -/
def encodeLog (tag : String) (c : CallerInfo) (span : Option SpanInfo)
    (msg : MsgVal) (bag : List (String × AttrVal)) (kv : List AttrVal) :
    List (String × AttrVal) :=
  (if tag ≠ "" then [("tag", AttrVal.str tag)] else [])
  ++ [("file", .str c.file), ("line", .int c.line), ("func", .str c.funcName)]
  ++ (match span with
      | some s => [("trace_id", AttrVal.str s.traceID), ("span_id", AttrVal.str s.spanID)]
      | none => [])
  ++ msgAttrs msg
  ++ bag
  ++ kvPairs kv

/-! ### Caller resolver (`trimFuncName`, caller.go lines 83–91) -/

/-- `strings.Index s c` (single-character needle). -/
def goIndexChar : List Char → Char → Option Nat
  | [], _ => none
  | x :: xs, c => if x = c then some 0 else (goIndexChar xs c).map (· + 1)

/-- `strings.LastIndex s c` (single-character needle). -/
def goLastIndexChar : List Char → Char → Option Nat
  | [], _ => none
  | x :: xs, c =>
    match goLastIndexChar xs c with
    | some i => some (i + 1)
    | none => if x = c then some 0 else none

/-- `trimFuncName`: drop everything up to and including the last `/`, then
everything up to and including the first `.` — but only when that dot is not
the final character. -/
def trimFuncName (s : String) : String :=
  let l := s.data
  let l := match goLastIndexChar l '/' with
    | some i => l.drop (i + 1)
    | none => l
  let l := match goIndexChar l '.' with
    | some i => if i + 1 < l.length then l.drop (i + 1) else l
    | none => l
  String.mk l

/-- `newHandler`'s defaulting of `AppName`, `QueueSize`, `LogDir`.  `Rotate`
is not defaulted. -/
def applyDefaults (cfg : Config) : Config :=
  let cfg := if cfg.appName = "" then { cfg with appName := "app" } else cfg
  let cfg := if cfg.queueSize ≤ 0 then { cfg with queueSize := 10000 } else cfg
  if cfg.logDir = "" then { cfg with logDir := "." } else cfg

/-- `newHandler`: apply the defaults, then perform the initial rotation under
the lock; a rotation error fails construction. -/
def newHandlerModel (cfg : Config) (env : OpenEnv) (fs : FS) (now : Nat) :
    Except PErr (Config × HState × FS) :=
  let cfg := applyDefaults cfg
  let out := rotateIfNeededLocked cfg env HState.init fs now
  match out.err with
  | some e => .error e
  | none => .ok (cfg, out.st, out.fs)

/-! ### Phase view of `rotateIfNeededLocked` and the pipeline invariant

The close/open phases of the rotation, as standalone functions; the theorem
`rotate_eq_phases` proves the rotation equal to their composition, which the
invariant-preservation proofs then reason over phase by phase. -/

/-- Close phase for the info stream (`if needNew && h.infoFile != nil`). -/
def closeInfo (needNew : Bool) (st : HState) (fs : FS) : HState × FS :=
  if needNew then
    match st.infoFile with
    | some f => ({ st with infoFile := none }, fs.closeFile f)
    | none => (st, fs)
  else (st, fs)

/-- Close phase for the warn stream. -/
def closeWarn (needWarnNew : Bool) (st : HState) (fs : FS) : HState × FS :=
  if needWarnNew then
    match st.warnFile with
    | some f => ({ st with warnFile := none }, fs.closeFile f)
    | none => (st, fs)
  else (st, fs)

/-- Successful open of the new info file plus its symlink update. -/
def openInfoStream (cfg : Config) (mode : RotateMode) (now : Nat)
    (st : HState) (fs : FS) : HState × FS :=
  let name := buildBase cfg mode now false
  ({ st with infoFile := some name },
   (fs.openCreate name now).setLink (cfg.appName ++ ".log") name)

/-- Successful open of the new warn file plus its symlink update. -/
def openWarnStream (cfg : Config) (mode : RotateMode) (now : Nat)
    (st : HState) (fs : FS) : HState × FS :=
  let name := buildBase cfg mode now true
  ({ st with warnFile := some name },
   (fs.openCreate name now).setLink (cfg.appName ++ ".wf.log") name)

/-- The sweep's matching predicate for the info stream
(`strings.HasPrefix(name, appName+"-") && strings.HasSuffix(name, ".log")`). -/
def matchesInfo (cfg : Config) (name : String) : Bool :=
  goHasPrefix name (infoPre cfg) && goHasSuffix name ".log"

/-- The sweep's matching predicate for the warn stream. -/
def matchesWarn (cfg : Config) (name : String) : Bool :=
  goHasPrefix name (warnPre cfg) && goHasSuffix name ".log"

/-- `f` exists and was modified strictly later than every other file matching
`pat` — the reason a retention sweep for `pat` can never delete `f`. -/
def strictNewest (fs : FS) (pat : String → Bool) (f : String) : Bool :=
  match fs.timeOf f with
  | none => false
  | some tf => fs.files.all fun g => g.1 == f || !(pat g.1) || decide (g.2 < tf)

/-- Per-stream invariant: when the stream has an open file, that file exists
and is the strictly newest file matching the stream's own sweep pattern, the
stream's "latest" symlink points at it, it matches its own pattern and not
the other stream's. -/
def streamOk (fs : FS) (file : Option String) (link : String)
    (pat patOther : String → Bool) : Bool :=
  match file with
  | none => true
  | some f =>
    strictNewest fs pat f && (fs.linkOf link == some f)
      && pat f && !(patOther f)

/-- The pipeline invariant at clock bound `b`: the open OS handles are
exactly the (at most one per stream) current files of the streams, file
names are unique, all modification times are at most `b`, and each stream
satisfies `streamOk`. -/
def Inv (cfg : Config) (st : HState) (fs : FS) (b : Nat) : Prop :=
  (fs.openHandles : Multiset String)
      = (↑(st.infoFile.toList ++ st.warnFile.toList) : Multiset String) ∧
  fs.files.Pairwise (fun p q => p.1 ≠ q.1) ∧
  (∀ p ∈ fs.files, p.2 ≤ b) ∧
  streamOk fs st.infoFile (cfg.appName ++ ".log")
    (matchesInfo cfg) (matchesWarn cfg) = true ∧
  streamOk fs st.warnFile (cfg.appName ++ ".wf.log")
    (matchesWarn cfg) (matchesInfo cfg) = true

/-- Side conditions of one writer iteration: the clock advanced past every
recorded modification time, and a file name the rotation would build is
either absent from the directory or is the stream's own current file (true
under a monotone clock in a directory whose pre-existing files do not
collide with the timestamped names of the current run). -/
def stepFresh (cfg : Config) (st : HState) (fs : FS) (b : Nat)
    (s : StepIn) : Bool :=
  decide (b < s.now) &&
  (match cfg.rotate with
   | none => true
   | some mode =>
     (!(fs.fileNames.contains (buildBase cfg mode s.now false))
        || st.infoFile == some (buildBase cfg mode s.now false)) &&
     (!(fs.fileNames.contains (buildBase cfg mode s.now true))
        || st.warnFile == some (buildBase cfg mode s.now true)))

/-- A writer-loop trace whose every step satisfies `stepFresh` for the state
it runs in. -/
inductive TraceOk (cfg : Config) : Nat → HState → FS → List StepIn → Prop where
  | nil : ∀ b st fs, TraceOk cfg b st fs []
  | cons : ∀ b st fs s rest,
      stepFresh cfg st fs b s = true →
      TraceOk cfg s.now
        (writeRecord cfg s.env st fs s.record s.now).st
        (writeRecord cfg s.env st fs s.record s.now).fs rest →
      TraceOk cfg b st fs (s :: rest)

/-- The clock bound after running a trace. -/
def lastBound (b : Nat) : List StepIn → Nat
  | [] => b
  | s :: rest => lastBound s.now rest

/-! ### Concrete fixtures used by witnesses and counterexamples -/

/-- Sample configuration: hourly rotation, console mirroring on (uncolored),
retention off. -/
def cfgW : Config :=
  { appName := "app", level := 0, logDir := "logs", consoleEnabled := true,
    consoleColored := false, rotate := some .hourly, maxFileSizeMB := 0,
    maxBackups := 0, queueSize := 5 }

/-- All OS calls succeed. -/
def envAllOk : OpenEnv :=
  { mkdirOk := true, infoOpenOk := true, warnOpenOk := true, readDirOk := true }

/-- Empty log directory, no open handles. -/
def fsEmpty : FS := { files := [], links := [], openHandles := [] }

/-- First sample writer iteration: an info record shortly after startup. -/
def stepW1 : StepIn :=
  { env := { rot := envAllOk, writeOk := true },
    record := { level := 0, line := "hello" }, now := 1 }

/-- Second sample writer iteration: a warn record in the next hour, forcing
a full rotation of both streams. -/
def stepW2 : StepIn :=
  { env := { rot := envAllOk, writeOk := true },
    record := { level := 4, line := "careful" }, now := nsPerHour + 1 }

/-! ## Theorems -/

/-! ### Helper lemmas: `goIndexChar` / `goLastIndexChar` -/

theorem goIndexChar_of_not_mem {l : List Char} {c : Char} (h : c ∉ l) :
    goIndexChar l c = none := by
  induction l with
  | nil => rfl
  | cons x xs ih =>
    simp only [List.mem_cons, not_or] at h
    simp [goIndexChar, Ne.symm h.1, ih h.2]

theorem goIndexChar_append {q r : List Char} {c : Char} (hq : c ∉ q) :
    goIndexChar (q ++ c :: r) c = some q.length := by
  induction q with
  | nil => simp [goIndexChar]
  | cons x xs ih =>
    simp only [List.mem_cons, not_or] at hq
    simp [goIndexChar, Ne.symm hq.1, ih hq.2]

theorem goLastIndexChar_of_not_mem {l : List Char} {c : Char} (h : c ∉ l) :
    goLastIndexChar l c = none := by
  induction l with
  | nil => rfl
  | cons x xs ih =>
    simp only [List.mem_cons, not_or] at h
    simp [goLastIndexChar, Ne.symm h.1, ih h.2]

theorem goLastIndexChar_append {p r : List Char} {c : Char} (hr : c ∉ r) :
    goLastIndexChar (p ++ c :: r) c = some p.length := by
  induction p with
  | nil => simp [goLastIndexChar, goLastIndexChar_of_not_mem hr]
  | cons x xs ih => simp [goLastIndexChar, ih]

/-! ### Helper lemmas: rotation -/

/-- The decision phase never touches the file handles. -/
theorem rotateDecision_files (mode : RotateMode) (cfg : Config) (st : HState)
    (now : Nat) :
    (rotateDecision mode cfg st now).st.infoFile = st.infoFile ∧
    (rotateDecision mode cfg st now).st.warnFile = st.warnFile := by
  cases mode <;> simp only [rotateDecision] <;> split_ifs <;> simp

/-- When every OS call succeeds, a rotate-check returns no error, leaves the
sizes and epoch of the decision phase untouched, and each stream ends with
the decision-phase file unless that stream rotated, in which case it ends
with the freshly built file name open. -/
theorem rotate_success_state (cfg : Config) (mode : RotateMode) (env : OpenEnv)
    (st : HState) (fs : FS) (now : Nat)
    (hmode : cfg.rotate = some mode) (hmk : env.mkdirOk = true)
    (hio : env.infoOpenOk = true) (hwo : env.warnOpenOk = true) :
    (rotateIfNeededLocked cfg env st fs now).err = none ∧
    (rotateIfNeededLocked cfg env st fs now).st.infoFile
      = (if (rotateDecision mode cfg st now).needNew
         then some (buildBase cfg mode now false)
         else (rotateDecision mode cfg st now).st.infoFile) ∧
    (rotateIfNeededLocked cfg env st fs now).st.warnFile
      = (if (rotateDecision mode cfg st now).needWarnNew
         then some (buildBase cfg mode now true)
         else (rotateDecision mode cfg st now).st.warnFile) ∧
    (rotateIfNeededLocked cfg env st fs now).st.infoSize
      = (rotateDecision mode cfg st now).st.infoSize ∧
    (rotateIfNeededLocked cfg env st fs now).st.warnSize
      = (rotateDecision mode cfg st now).st.warnSize ∧
    (rotateIfNeededLocked cfg env st fs now).st.curHr
      = (rotateDecision mode cfg st now).st.curHr := by
  unfold rotateIfNeededLocked
  rw [hmode]
  by_cases h1 : ¬ (rotateDecision mode cfg st now).needNew
      ∧ ¬ (rotateDecision mode cfg st now).needWarnNew
  · simp_all
  · cases hni : (rotateDecision mode cfg st now).needNew <;>
      cases hnw : (rotateDecision mode cfg st now).needWarnNew <;>
      rw [hni, hnw] at h1 <;> try simp at h1
    all_goals
      cases hif : (rotateDecision mode cfg st now).st.infoFile <;>
      cases hwf : (rotateDecision mode cfg st now).st.warnFile <;>
      simp_all

/-! ### Helper lemmas: the write path -/

/-- A failing rotate-check makes `writeRecord` return its error before
anything is written or mirrored. -/
theorem writeRecord_rot_err (cfg : Config) (env : WEnv) (st : HState) (fs : FS)
    (r : Rec) (now : Nat) (e : PErr)
    (he : (rotateIfNeededLocked cfg env.rot st fs now).err = some e) :
    writeRecord cfg env st fs r now =
      { st := (rotateIfNeededLocked cfg env.rot st fs now).st,
        fs := (rotateIfNeededLocked cfg env.rot st fs now).fs,
        err := some e, console := [], written := [] } := by
  simp only [writeRecord]
  rw [he]

/-- Successful rotate-check, info-level record, successful write. -/
theorem writeRecord_info_write (cfg : Config) (env : WEnv) (st : HState)
    (fs : FS) (r : Rec) (now : Nat) (name : String)
    (he : (rotateIfNeededLocked cfg env.rot st fs now).err = none)
    (hlev : ¬ levelWarn ≤ r.level)
    (hfi : (rotateIfNeededLocked cfg env.rot st fs now).st.infoFile = some name)
    (hwr : env.writeOk = true) :
    writeRecord cfg env st fs r now =
      { st := { (rotateIfNeededLocked cfg env.rot st fs now).st with
                infoSize := (rotateIfNeededLocked cfg env.rot st fs now).st.infoSize
                  + (r.line.length : Int) },
        fs := ((rotateIfNeededLocked cfg env.rot st fs now).fs).writeFile name now,
        err := none,
        console := if cfg.consoleEnabled then
            (if cfg.consoleColored then [colorLine r] else [r.line]) else [],
        written := [(name, r.line)] } := by
  simp only [writeRecord]
  rw [he]
  simp only [hlev, if_false, ite_false, hfi, hwr, if_true, ite_true]

/-- Successful rotate-check, warn-level record, successful write. -/
theorem writeRecord_warn_write (cfg : Config) (env : WEnv) (st : HState)
    (fs : FS) (r : Rec) (now : Nat) (name : String)
    (he : (rotateIfNeededLocked cfg env.rot st fs now).err = none)
    (hlev : levelWarn ≤ r.level)
    (hfw : (rotateIfNeededLocked cfg env.rot st fs now).st.warnFile = some name)
    (hwr : env.writeOk = true) :
    writeRecord cfg env st fs r now =
      { st := { (rotateIfNeededLocked cfg env.rot st fs now).st with
                warnSize := (rotateIfNeededLocked cfg env.rot st fs now).st.warnSize
                  + (r.line.length : Int) },
        fs := ((rotateIfNeededLocked cfg env.rot st fs now).fs).writeFile name now,
        err := none,
        console := if cfg.consoleEnabled then
            (if cfg.consoleColored then [colorLine r] else [r.line]) else [],
        written := [(name, r.line)] } := by
  simp only [writeRecord]
  rw [he]
  simp only [hlev, if_true, ite_true, hfw, hwr]

/-- Successful rotate-check but failing file write: the error is returned,
nothing reaches a file or the console, and the counters stay as the
rotate-check left them. -/
theorem writeRecord_write_fail (cfg : Config) (env : WEnv) (st : HState)
    (fs : FS) (r : Rec) (now : Nat) (name : String)
    (he : (rotateIfNeededLocked cfg env.rot st fs now).err = none)
    (hf : (if levelWarn ≤ r.level
           then (rotateIfNeededLocked cfg env.rot st fs now).st.warnFile
           else (rotateIfNeededLocked cfg env.rot st fs now).st.infoFile) = some name)
    (hwr : env.writeOk = false) :
    writeRecord cfg env st fs r now =
      { st := (rotateIfNeededLocked cfg env.rot st fs now).st,
        fs := (rotateIfNeededLocked cfg env.rot st fs now).fs,
        err := some .writeError, console := [], written := [] } := by
  by_cases hlev : levelWarn ≤ r.level
  · rw [if_pos hlev] at hf
    simp only [writeRecord]
    rw [he]
    simp [hlev, hf, hwr]
  · rw [if_neg hlev] at hf
    simp only [writeRecord]
    rw [he]
    simp [hlev, hf, hwr]

/-- Normal form of the hourly decision. -/
theorem rotateDecision_hourly_eq (cfg : Config) (st : HState) (now : Nat) :
    rotateDecision .hourly cfg st now =
      if st.curHr ≠ some (hourOf now) then
        { needNew := true, needWarnNew := true,
          st := { st with curHr := some (hourOf now), infoSize := 0, warnSize := 0 } }
      else
        { needNew := decide (st.infoFile = none),
          needWarnNew := decide (st.warnFile = none), st := st } := by
  obtain ⟨i, w, si, sw, ch⟩ := st
  by_cases hc : ch = some (hourOf now) <;>
    by_cases h1 : i = (none : Option String) <;>
    by_cases h2 : w = (none : Option String) <;>
    simp [rotateDecision, hc, h1, h2]

/-- Normal form of the size decision for a positive threshold. -/
theorem rotateDecision_size_eq (cfg : Config) (st : HState) (now : Nat)
    (hmb : 0 < cfg.maxFileSizeMB) :
    rotateDecision .size cfg st now =
      { needNew := decide (st.infoFile = none)
          || decide (cfg.maxFileSizeMB * 1024 * 1024 ≤ st.infoSize),
        needWarnNew := decide (st.warnFile = none)
          || decide (cfg.maxFileSizeMB * 1024 * 1024 ≤ st.warnSize),
        st := { st with
          infoSize := if cfg.maxFileSizeMB * 1024 * 1024 ≤ st.infoSize then 0
                      else st.infoSize,
          warnSize := if cfg.maxFileSizeMB * 1024 * 1024 ≤ st.warnSize then 0
                      else st.warnSize } } := by
  obtain ⟨i, w, si, sw, ch⟩ := st
  by_cases h1 : i = (none : Option String) <;>
    by_cases h2 : w = (none : Option String) <;>
    by_cases h3 : cfg.maxFileSizeMB * 1024 * 1024 ≤ si <;>
    by_cases h4 : cfg.maxFileSizeMB * 1024 * 1024 ≤ sw <;>
    simp [rotateDecision, hmb, h1, h2, h3, h4]

/-! ### C1 — rotate-check matches the configured policy -/

/-- C1 (confirmed): the rotate-check before each write rotates a stream
exactly when the policy demands it.  Hourly: a stream rotates iff it has no
open file or the stored epoch differs from the current truncated hour, the
new epoch is recorded and the rotating stream's byte counter ends at 0, and a
check that rotates nothing leaves the state untouched.  SizeBound
(`MaxFileSizeMB > 0`, limit = MB·2^20 bytes): a stream rotates iff it has no
open file or its cumulative counter is ≥ limit, and the rotating stream's
counter is reset to 0.  Consequently (last conjunct) after a size-triggered
rotation the counter holds exactly the byte count of the triggering event,
not the prior cumulative total.  The two `file = none → size = 0` hypotheses
hold in every reachable state: a counter is only ever advanced under an open
file and is reset when its stream's file is closed by a rotation trigger. -/
theorem rotate_check_matches_policy (cfg : Config) (st : HState) (now : Nat)
    (fs : FS) (r : Rec) (env : WEnv)
    (hi0 : st.infoFile = none → st.infoSize = 0)
    (hw0 : st.warnFile = none → st.warnSize = 0) :
    ((rotateDecision .hourly cfg st now).needNew = true
        ↔ (st.infoFile = none ∨ st.curHr ≠ some (hourOf now))) ∧
    ((rotateDecision .hourly cfg st now).needWarnNew = true
        ↔ (st.warnFile = none ∨ st.curHr ≠ some (hourOf now))) ∧
    ((rotateDecision .hourly cfg st now).needNew = true →
        (rotateDecision .hourly cfg st now).st.curHr = some (hourOf now) ∧
        (rotateDecision .hourly cfg st now).st.infoSize = 0) ∧
    ((rotateDecision .hourly cfg st now).needWarnNew = true →
        (rotateDecision .hourly cfg st now).st.curHr = some (hourOf now) ∧
        (rotateDecision .hourly cfg st now).st.warnSize = 0) ∧
    (((rotateDecision .hourly cfg st now).needNew = false ∧
      (rotateDecision .hourly cfg st now).needWarnNew = false) →
        (rotateDecision .hourly cfg st now).st = st) ∧
    (0 < cfg.maxFileSizeMB →
      (((rotateDecision .size cfg st now).needNew = true
          ↔ (st.infoFile = none ∨ cfg.maxFileSizeMB * 1024 * 1024 ≤ st.infoSize)) ∧
       ((rotateDecision .size cfg st now).needWarnNew = true
          ↔ (st.warnFile = none ∨ cfg.maxFileSizeMB * 1024 * 1024 ≤ st.warnSize)) ∧
       ((rotateDecision .size cfg st now).needNew = true →
          (rotateDecision .size cfg st now).st.infoSize = 0) ∧
       ((rotateDecision .size cfg st now).needWarnNew = true →
          (rotateDecision .size cfg st now).st.warnSize = 0))) ∧
    (cfg.rotate = some .size → 0 < cfg.maxFileSizeMB →
      cfg.maxFileSizeMB * 1024 * 1024 ≤ st.infoSize → r.level < levelWarn →
      env.rot.mkdirOk = true → env.rot.infoOpenOk = true →
      env.rot.warnOpenOk = true → env.writeOk = true →
      (writeRecord cfg env st fs r now).err = none ∧
      (writeRecord cfg env st fs r now).st.infoSize = (r.line.length : Int)) := by
  refine ⟨?_, ?_, ?_, ?_, ?_, ?_, ?_⟩
  · rw [rotateDecision_hourly_eq]
    by_cases hc : st.curHr = some (hourOf now) <;> simp [hc]
  · rw [rotateDecision_hourly_eq]
    by_cases hc : st.curHr = some (hourOf now) <;> simp [hc]
  · rw [rotateDecision_hourly_eq]
    by_cases hc : st.curHr = some (hourOf now) <;> simp_all
  · rw [rotateDecision_hourly_eq]
    by_cases hc : st.curHr = some (hourOf now) <;> simp_all
  · rw [rotateDecision_hourly_eq]
    by_cases hc : st.curHr = some (hourOf now) <;> simp_all
  · intro hmb
    rw [rotateDecision_size_eq cfg st now hmb]
    by_cases hsi : cfg.maxFileSizeMB * 1024 * 1024 ≤ st.infoSize <;>
      by_cases hsw : cfg.maxFileSizeMB * 1024 * 1024 ≤ st.warnSize <;>
      simp [hsi, hsw] <;>
      first | exact hi0 | exact hw0 | exact fun h => ⟨hi0, hw0⟩ | exact ⟨hi0, hw0⟩
  · intro hmode hmb hsi hlev hmk hio hwo hwr
    have hdn : (rotateDecision .size cfg st now).needNew = true := by
      rw [rotateDecision_size_eq cfg st now hmb]
      simp [hsi]
    have hds : (rotateDecision .size cfg st now).st.infoSize = 0 := by
      rw [rotateDecision_size_eq cfg st now hmb]
      simp [hsi]
    have hrs := rotate_success_state cfg .size env.rot st fs now hmode hmk hio hwo
    obtain ⟨he, hfi, -, hsz, -, -⟩ := hrs
    rw [hdn] at hfi
    simp only [if_pos] at hfi
    have hnotwarn : ¬ levelWarn ≤ r.level := not_le.mpr hlev
    rw [writeRecord_info_write cfg env st fs r now _ he hnotwarn hfi hwr]
    refine ⟨rfl, ?_⟩
    show (rotateIfNeededLocked cfg env.rot st fs now).st.infoSize
      + (r.line.length : Int) = (r.line.length : Int)
    rw [hsz, hds]
    ring

/-- Witness for C1: concrete states exercising the hourly trigger (fresh
state, epoch change) and the size trigger (counter at the limit), including
the post-rotation counter value. -/
theorem rotate_check_matches_policy_witness :
    ((rotateDecision .hourly
        { appName := "app", level := 0, logDir := "l", consoleEnabled := false,
          consoleColored := false, rotate := some .hourly, maxFileSizeMB := 0,
          maxBackups := 0, queueSize := 1 }
        HState.init 50).needNew = true
      ↔ ((HState.init.infoFile = none ∨ HState.init.curHr ≠ some (hourOf 50)))) ∧
    (writeRecord
        { appName := "app", level := 0, logDir := "l", consoleEnabled := false,
          consoleColored := false, rotate := some .size, maxFileSizeMB := 1,
          maxBackups := 0, queueSize := 1 }
        { rot := { mkdirOk := true, infoOpenOk := true, warnOpenOk := true,
                   readDirOk := true }, writeOk := true }
        { infoFile := some "f", warnFile := some "g", infoSize := 1048576,
          warnSize := 0, curHr := none }
        { files := [("f", 3), ("g", 4)], links := [], openHandles := ["f", "g"] }
        { level := 0, line := "hello\n" } 9).st.infoSize = 6 := by
  constructor
  · exact (rotate_check_matches_policy _ HState.init 50
      { files := [], links := [], openHandles := [] }
      { level := 0, line := "x" }
      { rot := { mkdirOk := true, infoOpenOk := true, warnOpenOk := true,
                 readDirOk := true }, writeOk := true }
      (fun _ => rfl) (fun _ => rfl)).1
  · have := (rotate_check_matches_policy
      { appName := "app", level := 0, logDir := "l", consoleEnabled := false,
        consoleColored := false, rotate := some .size, maxFileSizeMB := 1,
        maxBackups := 0, queueSize := 1 }
      { infoFile := some "f", warnFile := some "g", infoSize := 1048576,
        warnSize := 0, curHr := none } 9
      { files := [("f", 3), ("g", 4)], links := [], openHandles := ["f", "g"] }
      { level := 0, line := "hello\n" }
      { rot := { mkdirOk := true, infoOpenOk := true, warnOpenOk := true,
                 readDirOk := true }, writeOk := true }
      (by intro h; cases h) (fun _ => rfl)).2.2.2.2.2.2
      rfl (by decide) (by decide) (by decide) rfl rfl rfl rfl
    simpa using this.2

/-- A stream whose rotate-check decides against rotating had an open file. -/
theorem needNew_false_open (mode : RotateMode) (cfg : Config) (st : HState)
    (now : Nat) :
    ((rotateDecision mode cfg st now).needNew = false → st.infoFile ≠ none) ∧
    ((rotateDecision mode cfg st now).needWarnNew = false → st.warnFile ≠ none) := by
  cases mode
  · rw [rotateDecision_hourly_eq]
    by_cases hc : st.curHr = some (hourOf now) <;> simp [hc]
  · by_cases hmb : 0 < cfg.maxFileSizeMB
    · rw [rotateDecision_size_eq cfg st now hmb]
      simp
      exact ⟨fun h _ => h, fun h _ => h⟩
    · cases hif : st.infoFile <;> cases hwf : st.warnFile <;>
        simp [rotateDecision, hmb, hif, hwf]

/-- A rotate-check that returns no error leaves both streams with an open
file: the freshly built name for a stream that rotated, the previous file
otherwise. -/
theorem rotate_success_files (cfg : Config) (mode : RotateMode) (env : OpenEnv)
    (st : HState) (fs : FS) (now : Nat)
    (hmode : cfg.rotate = some mode)
    (he : (rotateIfNeededLocked cfg env st fs now).err = none) :
    (rotateIfNeededLocked cfg env st fs now).st.infoFile
      = (if (rotateDecision mode cfg st now).needNew
         then some (buildBase cfg mode now false)
         else (rotateDecision mode cfg st now).st.infoFile) ∧
    (rotateIfNeededLocked cfg env st fs now).st.warnFile
      = (if (rotateDecision mode cfg st now).needWarnNew
         then some (buildBase cfg mode now true)
         else (rotateDecision mode cfg st now).st.warnFile) ∧
    (rotateIfNeededLocked cfg env st fs now).st.infoSize
      = (rotateDecision mode cfg st now).st.infoSize ∧
    (rotateIfNeededLocked cfg env st fs now).st.warnSize
      = (rotateDecision mode cfg st now).st.warnSize ∧
    (rotateIfNeededLocked cfg env st fs now).st.curHr
      = (rotateDecision mode cfg st now).st.curHr := by
  unfold rotateIfNeededLocked at he ⊢
  rw [hmode] at he ⊢
  by_cases h1 : ¬ (rotateDecision mode cfg st now).needNew
      ∧ ¬ (rotateDecision mode cfg st now).needWarnNew
  · simp_all
  · cases hni : (rotateDecision mode cfg st now).needNew <;>
      cases hnw : (rotateDecision mode cfg st now).needWarnNew <;>
      cases hmk : env.mkdirOk <;>
      cases hio : env.infoOpenOk <;>
      cases hwo : env.warnOpenOk <;>
      cases hif : (rotateDecision mode cfg st now).st.infoFile <;>
      cases hwf : (rotateDecision mode cfg st now).st.warnFile <;>
      simp_all

/-- Both streams are open after a successful rotate-check. -/
theorem rotate_success_opens (cfg : Config) (mode : RotateMode) (env : OpenEnv)
    (st : HState) (fs : FS) (now : Nat)
    (hmode : cfg.rotate = some mode)
    (he : (rotateIfNeededLocked cfg env st fs now).err = none) :
    ∃ fi fw,
      (rotateIfNeededLocked cfg env st fs now).st.infoFile = some fi ∧
      (rotateIfNeededLocked cfg env st fs now).st.warnFile = some fw := by
  obtain ⟨hfi, hfw, -, -, -⟩ := rotate_success_files cfg mode env st fs now hmode he
  obtain ⟨hni, hnw⟩ := needNew_false_open mode cfg st now
  obtain ⟨hdi, hdw⟩ := rotateDecision_files mode cfg st now
  have h1 : ∃ fi, (rotateIfNeededLocked cfg env st fs now).st.infoFile = some fi := by
    rw [hfi]
    cases hn : (rotateDecision mode cfg st now).needNew
    · simp only [Bool.false_eq_true, if_false, hdi]
      exact Option.ne_none_iff_exists'.mp (hni hn)
    · exact ⟨buildBase cfg mode now false, by simp⟩
  have h2 : ∃ fw, (rotateIfNeededLocked cfg env st fs now).st.warnFile = some fw := by
    rw [hfw]
    cases hn : (rotateDecision mode cfg st now).needWarnNew
    · simp only [Bool.false_eq_true, if_false, hdw]
      exact Option.ne_none_iff_exists'.mp (hnw hn)
    · exact ⟨buildBase cfg mode now true, by simp⟩
  obtain ⟨fi, h1⟩ := h1
  obtain ⟨fw, h2⟩ := h2
  exact ⟨fi, fw, h1, h2⟩

/-- The rotation is the composition of its phases: decision, closes, opens
(each gated by its oracle, failing with the state mutated so far), sweeps. -/
theorem rotate_eq_phases (cfg : Config) (mode : RotateMode) (env : OpenEnv)
    (st : HState) (fs : FS) (now : Nat) (hmode : cfg.rotate = some mode) :
    rotateIfNeededLocked cfg env st fs now =
      (let d := rotateDecision mode cfg st now
       if ¬ d.needNew ∧ ¬ d.needWarnNew then { st := d.st, fs := fs, err := none }
       else
         let c1 := closeInfo d.needNew d.st fs
         let c2 := closeWarn d.needWarnNew c1.1 c1.2
         if ¬ env.mkdirOk then { st := c2.1, fs := c2.2, err := some .osError }
         else if d.needNew ∧ ¬ env.infoOpenOk then
           { st := c2.1, fs := c2.2, err := some .osError }
         else
           let o1 := if d.needNew then openInfoStream cfg mode now c2.1 c2.2
                     else (c2.1, c2.2)
           if d.needWarnNew ∧ ¬ env.warnOpenOk then
             { st := o1.1, fs := o1.2, err := some .osError }
           else
             let o2 := if d.needWarnNew then openWarnStream cfg mode now o1.1 o1.2
                       else (o1.1, o1.2)
             { st := o2.1, fs := applyCleanups cfg env o2.2, err := none }) := by
  unfold rotateIfNeededLocked
  rw [hmode]
  by_cases h1 : ¬ (rotateDecision mode cfg st now).needNew
      ∧ ¬ (rotateDecision mode cfg st now).needWarnNew
  · simp [h1]
  · cases hni : (rotateDecision mode cfg st now).needNew <;>
      cases hnw : (rotateDecision mode cfg st now).needWarnNew <;>
      cases hmk : env.mkdirOk <;>
      cases hio : env.infoOpenOk <;>
      cases hwo : env.warnOpenOk <;>
      cases hif : (rotateDecision mode cfg st now).st.infoFile <;>
      cases hwf : (rotateDecision mode cfg st now).st.warnFile <;>
      simp_all [closeInfo, closeWarn, openInfoStream, openWarnStream]

/-! ### Name lemmas: built file names versus the two sweep patterns -/

theorem isPrefixOf_append_cons_ne {l p t : List Char} {x y : Char} (h : x ≠ y) :
    (l ++ x :: p).isPrefixOf (l ++ y :: t) = false := by
  induction l with
  | nil => simp [List.isPrefixOf, h]
  | cons a as ih => simpa [List.isPrefixOf] using ih

theorem suffix_append_left {α : Type} {s t : List α} (l : List α)
    (h : s <:+ t) : s <:+ l ++ t :=
  h.trans (List.suffix_append l t)

theorem matchesInfo_buildBase (cfg : Config) (mode : RotateMode) (now : Nat) :
    matchesInfo cfg (buildBase cfg mode now false) = true := by
  simp only [matchesInfo, buildBase, Bool.false_eq_true, if_false, infoPre,
    goHasPrefix, goHasSuffix, Bool.and_eq_true, List.isPrefixOf_iff_prefix,
    List.isSuffixOf_iff_suffix]
  constructor
  · simp [String.data_append, List.append_assoc]
  · simp only [String.data_append, List.append_assoc]
    have := suffix_append_left (cfg.appName.data ++ '-' :: (buildTs mode now).data)
      (List.suffix_refl ".log".data)
    simpa using this

theorem matchesWarn_buildBase (cfg : Config) (mode : RotateMode) (now : Nat) :
    matchesWarn cfg (buildBase cfg mode now true) = true := by
  simp only [matchesWarn, buildBase, if_true, warnPre, goHasPrefix, goHasSuffix,
    Bool.and_eq_true, List.isPrefixOf_iff_prefix, List.isSuffixOf_iff_suffix]
  constructor
  · simp [String.data_append, List.append_assoc]
  · simp only [String.data_append, List.append_assoc]
    have := suffix_append_left
      (cfg.appName.data ++ '.' :: 'w' :: 'f' :: '-' :: (buildTs mode now).data)
      (List.suffix_refl ".log".data)
    simpa using this

theorem matchesWarn_buildBase_info (cfg : Config) (mode : RotateMode)
    (now : Nat) :
    matchesWarn cfg (buildBase cfg mode now false) = false := by
  have key : ((cfg.appName ++ ".wf-").data).isPrefixOf
      ((cfg.appName ++ "-" ++ buildTs mode now ++ ".log").data) = false := by
    have h1 : (cfg.appName ++ ".wf-").data
        = cfg.appName.data ++ '.' :: ['w', 'f', '-'] := by
      simp [String.data_append]
    have h2 : (cfg.appName ++ "-" ++ buildTs mode now ++ ".log").data
        = cfg.appName.data
            ++ '-' :: ((buildTs mode now).data ++ ".log".data) := by
      simp [String.data_append, List.append_assoc]
    rw [h1, h2]
    exact isPrefixOf_append_cons_ne (by decide)
  simp only [matchesWarn, buildBase, Bool.false_eq_true, if_false, warnPre,
    goHasPrefix, key, Bool.false_and]

theorem matchesInfo_buildBase_warn (cfg : Config) (mode : RotateMode)
    (now : Nat) :
    matchesInfo cfg (buildBase cfg mode now true) = false := by
  have key : ((cfg.appName ++ "-").data).isPrefixOf
      ((cfg.appName ++ ".wf-" ++ buildTs mode now ++ ".log").data) = false := by
    have h1 : (cfg.appName ++ "-").data = cfg.appName.data ++ '-' :: [] := by
      simp [String.data_append]
    have h2 : (cfg.appName ++ ".wf-" ++ buildTs mode now ++ ".log").data
        = cfg.appName.data
            ++ '.' :: ("wf-".data ++ ((buildTs mode now).data ++ ".log".data)) := by
      simp [String.data_append, List.append_assoc]
    rw [h1, h2]
    exact isPrefixOf_append_cons_ne (by decide)
  simp only [matchesInfo, buildBase, if_true, infoPre, goHasPrefix, key,
    Bool.false_and]

theorem link_names_ne (cfg : Config) :
    cfg.appName ++ ".log" ≠ cfg.appName ++ ".wf.log" := by
  intro h
  have hd : (cfg.appName ++ ".log").data = (cfg.appName ++ ".wf.log").data := by
    rw [h]
  simp [String.data_append] at hd

/-! ### Lookup lemmas for the file-system model -/

theorem find?_filter_of_imp {α : Type} (l : List α) (p q : α → Bool)
    (h : ∀ x, p x = true → q x = true) :
    (l.filter q).find? p = l.find? p := by
  induction l with
  | nil => rfl
  | cons a as ih =>
    by_cases hp : p a = true
    · have hq := h a hp
      simp [List.filter_cons, hq, List.find?_cons, hp, ih]
    · by_cases hq : q a = true <;>
        simp [List.filter_cons, hq, List.find?_cons, hp, ih]

theorem linkOf_setLink_self (fs : FS) (l target : String) :
    (fs.setLink l target).linkOf l = some target := by
  simp [FS.linkOf, FS.setLink, List.find?_cons]

theorem linkOf_setLink_other (fs : FS) (l l2 target : String) (h : l2 ≠ l) :
    (fs.setLink l target).linkOf l2 = fs.linkOf l2 := by
  have hne : (l == l2) = false := by simpa using fun he => h he.symm
  simp only [FS.linkOf, FS.setLink, List.find?_cons, hne]
  rw [find?_filter_of_imp]
  intro x hx
  simp only [beq_iff_eq] at hx
  simp [hx, h]

theorem linkOf_openCreate (fs : FS) (name : String) (now : Nat) (l : String) :
    (fs.openCreate name now).linkOf l = fs.linkOf l := rfl

theorem timeOf_setLink (fs : FS) (l target f : String) :
    (fs.setLink l target).timeOf f = fs.timeOf f := rfl

theorem timeOf_closeFile (fs : FS) (g f : String) :
    (fs.closeFile g).timeOf f = fs.timeOf f := rfl

theorem timeOf_removeAll (fs : FS) (del : List String) (f : String)
    (h : ¬ del.contains f = true) :
    (fs.removeAll del).timeOf f = fs.timeOf f := by
  simp only [FS.timeOf, FS.removeAll]
  rw [find?_filter_of_imp]
  intro x hx
  simp only [beq_iff_eq] at hx
  simpa [hx] using h

/-- With unique names an entry is determined by its name. -/
theorem mem_unique_name {l : List (String × Nat)} {f : String} {t1 t2 : Nat}
    (hnd : l.Pairwise (fun p q => p.1 ≠ q.1))
    (h1 : (f, t1) ∈ l) (h2 : (f, t2) ∈ l) : t1 = t2 := by
  induction hnd with
  | nil => cases h1
  | @cons a as hh _ ih =>
    rcases List.mem_cons.mp h1 with he1 | hm1 <;>
      rcases List.mem_cons.mp h2 with he2 | hm2
    · exact congrArg Prod.snd (he1.trans he2.symm)
    · exact absurd (congrArg Prod.fst he1.symm) (hh (f, t2) hm2)
    · exact absurd (congrArg Prod.fst he2.symm) (hh (f, t1) hm1)
    · exact ih hm1 hm2

/-- With unique names, the assoc lookup is exactly membership. -/
theorem lookup_eq_some_iff : ∀ {l : List (String × Nat)} {f : String} {t : Nat},
    l.Pairwise (fun p q => p.1 ≠ q.1) →
    (((l.find? fun p => p.1 == f).map (·.2) = some t) ↔ (f, t) ∈ l)
  | [], f, t, _ => by simp
  | p :: ps, f, t, hnd => by
    rw [List.pairwise_cons] at hnd
    by_cases hp : p.1 = f
    · simp only [List.find?_cons, show (p.1 == f) = true by simpa using hp,
        Option.map_some, List.mem_cons]
      constructor
      · intro he
        left
        obtain ⟨p1, p2⟩ := p
        simp_all
      · rintro (he | hmem)
        · rw [← he]
          rfl
        · exact absurd hp (by simpa using (hnd.1 (f, t) hmem))
    · simp only [List.find?_cons, show (p.1 == f) = false by simpa using hp,
        List.mem_cons]
      rw [lookup_eq_some_iff hnd.2]
      constructor
      · exact Or.inr
      · rintro (he | hmem)
        · exact absurd (congrArg Prod.fst he.symm) (by simpa using hp)
        · exact hmem

/-- With unique names, `timeOf` is exactly membership. -/
theorem timeOf_eq_some_iff {fs : FS} {f : String} {t : Nat}
    (hnd : fs.files.Pairwise (fun p q => p.1 ≠ q.1)) :
    fs.timeOf f = some t ↔ (f, t) ∈ fs.files :=
  lookup_eq_some_iff hnd

/-- `strictNewest` as a membership statement, under unique names. -/
theorem strictNewest_iff {fs : FS} {pat : String → Bool} {f : String}
    (hnd : fs.files.Pairwise (fun p q => p.1 ≠ q.1)) :
    strictNewest fs pat f = true ↔
      ∃ tf, (f, tf) ∈ fs.files ∧
        ∀ g ∈ fs.files, g.1 ≠ f → pat g.1 = true → g.2 < tf := by
  unfold strictNewest
  cases ht : fs.timeOf f with
  | none =>
    simp only [Bool.false_eq_true, false_iff]
    rintro ⟨tf, hmem, -⟩
    rw [← timeOf_eq_some_iff hnd] at hmem
    rw [ht] at hmem
    cases hmem
  | some tf =>
    rw [timeOf_eq_some_iff hnd] at ht
    constructor
    · intro hall
      rw [List.all_eq_true] at hall
      refine ⟨tf, ht, fun g hg hne hpat => ?_⟩
      have hgg := hall g hg
      simp only [Bool.or_eq_true, beq_iff_eq, Bool.not_eq_true',
        decide_eq_true_eq] at hgg
      rcases hgg with (h1 | h2) | h3
      · exact absurd h1 hne
      · rw [hpat] at h2
        cases h2
      · omega
    · rintro ⟨tf2, hmem2, hlt⟩
      have htf : tf2 = tf := mem_unique_name hnd hmem2 ht
      rw [List.all_eq_true]
      intro g hg
      simp only [Bool.or_eq_true, beq_iff_eq, Bool.not_eq_true',
        decide_eq_true_eq]
      rcases eq_or_ne g.1 f with he | hne
      · exact Or.inl (Or.inl he)
      · by_cases hp : pat g.1 = true
        · exact Or.inr (htf ▸ hlt g hg hne hp)
        · exact Or.inl (Or.inr (by simpa using hp))

/-! ### What a retention sweep can delete -/

/-- The sweep's considered set over the model's directory view. -/
theorem collectFiles_entries (pre : String) (fs : FS) :
    collectFiles pre ".log" fs.entries
      = (fs.files.filter fun p =>
          goHasPrefix p.1 pre && goHasSuffix p.1 ".log").map
          fun p => { name := p.1, t := p.2 } := by
  simp only [FS.entries]
  induction fs.files with
  | nil => rfl
  | cons p ps ih =>
    by_cases hp : goHasPrefix p.1 pre = true <;>
      by_cases hs : goHasSuffix p.1 ".log" = true <;>
      simp [collectFiles, List.filterMap_cons, List.filter_cons, hp, hs] <;>
      simpa [collectFiles] using ih

/-- Every name a sweep deletes matches the sweep's prefix and suffix. -/
theorem cleanup_deleted_matches {maxBackups : Nat} {pre x : String} {fs : FS}
    (hx : x ∈ cleanupOldFiles maxBackups pre (some fs.entries)) :
    (goHasPrefix x pre && goHasSuffix x ".log") = true := by
  unfold cleanupOldFiles at hx
  by_cases hlen : (collectFiles pre ".log" fs.entries).length ≤ maxBackups
  · simp [hlen] at hx
  · simp only [hlen, if_false, List.mem_map] at hx
    obtain ⟨fi, hfi, hname⟩ := hx
    have hfi2 : fi ∈ collectFiles pre ".log" fs.entries := by
      have hsub := List.drop_subset maxBackups
        (sortByTimeDesc (collectFiles pre ".log" fs.entries))
      have := hsub hfi
      exact (List.perm_insertionSort timeGE _).mem_iff.mp this
    rw [collectFiles_entries] at hfi2
    rw [List.mem_map] at hfi2
    obtain ⟨p, hp, hpe⟩ := hfi2
    rw [List.mem_filter] at hp
    rw [← hname, ← hpe]
    exact hp.2

/-- A sweep never deletes a file that is the strictly newest one matching its
pattern, nor any file that does not match the pattern at all. -/
theorem cleanup_keeps (fs : FS) (pre f : String) (maxBackups : Nat)
    (hN : 1 ≤ maxBackups)
    (hnd : fs.files.Pairwise (fun p q => p.1 ≠ q.1))
    (hsafe : (goHasPrefix f pre && goHasSuffix f ".log") = false ∨
      strictNewest fs (fun n => goHasPrefix n pre && goHasSuffix n ".log") f
        = true) :
    ¬ f ∈ cleanupOldFiles maxBackups pre (some fs.entries) := by
  intro hmem
  rcases hsafe with hno | hnewest
  · rw [cleanup_deleted_matches hmem] at hno
    cases hno
  · -- translate strictNewest to the considered set
    obtain ⟨tf, hmemf, hmax⟩ := (strictNewest_iff hnd).mp hnewest
    by_cases hpat : (goHasPrefix f pre && goHasSuffix f ".log") = true
    · -- the strict maximum heads the sorted list and is never dropped
      unfold cleanupOldFiles at hmem
      by_cases hlen : (collectFiles pre ".log" fs.entries).length ≤ maxBackups
      · simp [hlen] at hmem
      · simp only [hlen, if_false, List.mem_map] at hmem
        obtain ⟨fi, hfi, hname⟩ := hmem
        -- the Fi for f
        set M := collectFiles pre ".log" fs.entries with hM
        set S := sortByTimeDesc M with hS
        have hfM : ({ name := f, t := tf } : Fi) ∈ M := by
          rw [hM, collectFiles_entries, List.mem_map]
          exact ⟨(f, tf), List.mem_filter.mpr ⟨hmemf, hpat⟩, rfl⟩
        have hMnames : M.Pairwise (fun a b => a.name ≠ b.name) := by
          rw [hM, collectFiles_entries]
          refine List.Pairwise.map _ (fun a b h => h) ?_
          exact List.Pairwise.filter _ hnd
        have hMmax : ∀ g ∈ M, g.name ≠ f → g.t < tf := by
          intro g hg hne
          rw [hM, collectFiles_entries, List.mem_map] at hg
          obtain ⟨p, hp, hpe⟩ := hg
          rw [List.mem_filter] at hp
          have := hmax p hp.1 (by rw [← hpe] at hne; exact hne) hp.2
          rw [← hpe]
          exact this
        -- S is sorted and a permutation of M
        have hSperm : S.Perm M := List.perm_insertionSort timeGE M
        have hSsorted : S.Pairwise timeGE := List.sorted_insertionSort timeGE M
        have hSnames : S.Pairwise (fun a b => a.name ≠ b.name) :=
          (hSperm.pairwise_iff (fun h h2 => h h2.symm)).mpr hMnames
        -- S is nonempty and must start with the Fi of f
        have hfS : ({ name := f, t := tf } : Fi) ∈ S := hSperm.mem_iff.mpr hfM
        cases hSe : S with
        | nil =>
          rw [hSe] at hfS
          cases hfS
        | cons h0 tS =>
          have hh0 : h0 = { name := f, t := tf } := by
            by_contra hne
            rw [hSe] at hfS
            rcases List.mem_cons.mp hfS with he | hmem2
            · exact hne he.symm
            · -- f is in the tail; sortedness gives tf ≤ h0.t, maximality h0.t < tf
              have hle : timeGE h0 { name := f, t := tf } := by
                rw [hSe] at hSsorted
                exact (List.pairwise_cons.mp hSsorted).1 _ hmem2
              have hh0M : h0 ∈ M := hSperm.mem_iff.mp (by rw [hSe]; simp)
              have hne2 : h0.name ≠ f := by
                intro heq
                have : h0.t = tf := by
                  rw [hSe] at hSnames
                  have := (List.pairwise_cons.mp hSnames).1 _ hmem2
                  simp only [heq] at this
                  exact absurd rfl this
                exact hne (by cases h0; simp_all)
              have := hMmax h0 hh0M hne2
              unfold timeGE at hle
              simp only at hle
              omega
          -- fi comes from the drop, hence from the tail, so its name differs
          have hfi_tail : fi ∈ tS := by
            have : fi ∈ S.drop maxBackups := hfi
            rw [hSe] at this
            cases maxBackups with
            | zero => omega
            | succ k => exact List.drop_subset k tS this
          rw [hSe] at hSnames
          have := (List.pairwise_cons.mp hSnames).1 _ hfi_tail
          rw [hh0] at this
          simp only at this
          exact this (by rw [hname])
    · exact hpat (cleanup_deleted_matches hmem)

/-! ### Invariant preservation, phase by phase -/

theorem strictNewest_congr (fs fs2 : FS) (h : fs2.files = fs.files)
    (pat : String → Bool) (f : String) :
    strictNewest fs2 pat f = strictNewest fs pat f := by
  unfold strictNewest FS.timeOf
  rw [h]

theorem streamOk_congr (fs fs2 : FS) (hf : fs2.files = fs.files)
    (hl : fs2.links = fs.links) (file : Option String) (link : String)
    (pat patOther : String → Bool) :
    streamOk fs2 file link pat patOther
      = streamOk fs file link pat patOther := by
  unfold streamOk
  cases file with
  | none => rfl
  | some f =>
    show (strictNewest fs2 pat f && (fs2.linkOf link == some f) && pat f
        && !(patOther f))
      = (strictNewest fs pat f && (fs.linkOf link == some f) && pat f
        && !(patOther f))
    rw [strictNewest_congr fs fs2 hf]
    unfold FS.linkOf
    rw [hl]

theorem Inv_mono (cfg : Config) (st : HState) (fs : FS) {b b2 : Nat}
    (h : Inv cfg st fs b) (hb : b ≤ b2) : Inv cfg st fs b2 :=
  ⟨h.1, h.2.1, fun p hp => le_trans (h.2.2.1 p hp) hb, h.2.2.2.1, h.2.2.2.2⟩

theorem Inv_decision (cfg : Config) (mode : RotateMode) (st : HState)
    (now : Nat) (fs : FS) (b : Nat) (h : Inv cfg st fs b) :
    Inv cfg (rotateDecision mode cfg st now).st fs b := by
  obtain ⟨hdi, hdw⟩ := rotateDecision_files mode cfg st now
  obtain ⟨h1, h2, h3, h4, h5⟩ := h
  exact ⟨by rw [hdi, hdw]; exact h1, h2, h3, by rw [hdi]; exact h4,
    by rw [hdw]; exact h5⟩

theorem Inv_closeInfo (cfg : Config) (nn : Bool) (st : HState) (fs : FS)
    (b : Nat) (h : Inv cfg st fs b) :
    Inv cfg (closeInfo nn st fs).1 (closeInfo nn st fs).2 b := by
  unfold closeInfo
  cases nn
  · simpa using h
  · cases hif : st.infoFile with
    | none => simpa using h
    | some f =>
      obtain ⟨h1, h2, h3, h4, h5⟩ := h
      rw [hif] at h1
      refine ⟨?_, h2, h3, by rfl, ?_⟩
      · show ((fs.openHandles.erase f : List String) : Multiset String) = _
        calc ((fs.openHandles.erase f : List String) : Multiset String)
            = (fs.openHandles : Multiset String).erase f :=
              (Multiset.coe_erase _ _).symm
          _ = ((f :: st.warnFile.toList : List String) : Multiset String).erase f := by
              rw [h1]
              rfl
          _ = (st.warnFile.toList : Multiset String) := by
              rw [← Multiset.cons_coe, Multiset.erase_cons_head]
          _ = _ := by simp
      · show streamOk (fs.closeFile f) st.warnFile (cfg.appName ++ ".wf.log")
            (matchesWarn cfg) (matchesInfo cfg) = true
        rw [streamOk_congr fs (fs.closeFile f) rfl rfl]
        exact h5

theorem Inv_closeWarn (cfg : Config) (nw : Bool) (st : HState) (fs : FS)
    (b : Nat) (h : Inv cfg st fs b) :
    Inv cfg (closeWarn nw st fs).1 (closeWarn nw st fs).2 b := by
  unfold closeWarn
  cases nw
  · simpa using h
  · cases hwf : st.warnFile with
    | none => simpa using h
    | some f =>
      obtain ⟨h1, h2, h3, h4, h5⟩ := h
      rw [hwf] at h1
      refine ⟨?_, h2, h3, ?_, by rfl⟩
      · show ((fs.openHandles.erase f : List String) : Multiset String) = _
        calc ((fs.openHandles.erase f : List String) : Multiset String)
            = (fs.openHandles : Multiset String).erase f :=
              (Multiset.coe_erase _ _).symm
          _ = ((st.infoFile.toList ++ [f] : List String) : Multiset String).erase f := by
              rw [h1]
              rfl
          _ = (st.infoFile.toList : Multiset String) := by
              have hcons : ((st.infoFile.toList ++ [f] : List String) :
                    Multiset String)
                  = f ::ₘ (st.infoFile.toList : Multiset String) := by
                rw [← Multiset.coe_add, Multiset.coe_singleton, add_comm,
                  Multiset.singleton_add]
              rw [hcons, Multiset.erase_cons_head]
          _ = _ := by simp
      · show streamOk (fs.closeFile f) st.infoFile (cfg.appName ++ ".log")
            (matchesInfo cfg) (matchesWarn cfg) = true
        rw [streamOk_congr fs (fs.closeFile f) rfl rfl]
        exact h4

theorem openCreate_files_pos (fs : FS) (name : String) (now : Nat)
    (h : fs.files.any (fun p => p.1 == name) = true) :
    (fs.openCreate name now).files = fs.files := by
  simp [FS.openCreate, h]

theorem openCreate_files_neg (fs : FS) (name : String) (now : Nat)
    (h : ¬ fs.files.any (fun p => p.1 == name) = true) :
    (fs.openCreate name now).files = (name, now) :: fs.files := by
  simp [FS.openCreate, h]

theorem mem_fileNames_of_any {fs : FS} {name : String}
    (h : fs.files.any (fun p => p.1 == name) = true) :
    name ∈ fs.fileNames := by
  rw [List.any_eq_true] at h
  obtain ⟨p, hp, hpe⟩ := h
  simp only [beq_iff_eq] at hpe
  rw [FS.fileNames, List.mem_map]
  exact ⟨p, hp, hpe⟩

theorem Inv_openInfo (cfg : Config) (mode : RotateMode) (now : Nat)
    (st : HState) (fs : FS) (b : Nat)
    (hinv : Inv cfg st fs b) (hb : b < now)
    (hif : st.infoFile = none)
    (hfresh : buildBase cfg mode now false ∈ fs.fileNames →
      strictNewest fs (matchesInfo cfg) (buildBase cfg mode now false) = true) :
    Inv cfg (openInfoStream cfg mode now st fs).1
      (openInfoStream cfg mode now st fs).2 now := by
  obtain ⟨h1, h2, h3, h4, h5⟩ := hinv
  refine ⟨?_, ?_, ?_, ?_, ?_⟩
  · show ((buildBase cfg mode now false :: fs.openHandles : List String) :
        Multiset String)
      = ↑((some (buildBase cfg mode now false)).toList ++ st.warnFile.toList)
    rw [← Multiset.cons_coe, h1, hif]
    rfl
  · show ((fs.openCreate (buildBase cfg mode now false) now).files).Pairwise
      (fun p q => p.1 ≠ q.1)
    by_cases hpres : fs.files.any
        (fun p => p.1 == buildBase cfg mode now false) = true
    · rw [openCreate_files_pos fs _ now hpres]
      exact h2
    · rw [openCreate_files_neg fs _ now hpres]
      rw [List.pairwise_cons]
      refine ⟨fun q hq => ?_, h2⟩
      rw [List.any_eq_true] at hpres
      push_neg at hpres
      intro he
      exact absurd (by simpa using he.symm) (hpres q hq)
  · show ∀ p ∈ (fs.openCreate (buildBase cfg mode now false) now).files,
      p.2 ≤ now
    by_cases hpres : fs.files.any
        (fun p => p.1 == buildBase cfg mode now false) = true
    · rw [openCreate_files_pos fs _ now hpres]
      exact fun p hp => le_trans (h3 p hp) (le_of_lt hb)
    · rw [openCreate_files_neg fs _ now hpres]
      intro p hp
      rcases List.mem_cons.mp hp with he | hm
      · rw [he]
      · exact le_trans (h3 p hm) (le_of_lt hb)
  · -- the info stream: fresh file, fresh link
    show (strictNewest
          ((fs.openCreate (buildBase cfg mode now false) now).setLink
            (cfg.appName ++ ".log") (buildBase cfg mode now false))
          (matchesInfo cfg) (buildBase cfg mode now false)
        && (((fs.openCreate (buildBase cfg mode now false) now).setLink
            (cfg.appName ++ ".log")
            (buildBase cfg mode now false)).linkOf (cfg.appName ++ ".log")
          == some (buildBase cfg mode now false))
        && matchesInfo cfg (buildBase cfg mode now false)
        && !(matchesWarn cfg (buildBase cfg mode now false))) = true
    rw [linkOf_setLink_self, matchesInfo_buildBase, matchesWarn_buildBase_info,
      strictNewest_congr (fs.openCreate (buildBase cfg mode now false) now)
        ((fs.openCreate (buildBase cfg mode now false) now).setLink
          (cfg.appName ++ ".log") (buildBase cfg mode now false)) rfl]
    simp only [beq_self_eq_true, Bool.and_true, Bool.not_false]
    by_cases hpres : fs.files.any
        (fun p => p.1 == buildBase cfg mode now false) = true
    · rw [strictNewest_congr fs _ (openCreate_files_pos fs _ now hpres)]
      exact hfresh (mem_fileNames_of_any hpres)
    · have hnd2 : ((fs.openCreate (buildBase cfg mode now false) now).files).Pairwise
          (fun p q => p.1 ≠ q.1) := by
        rw [openCreate_files_neg fs _ now hpres, List.pairwise_cons]
        refine ⟨fun q hq => ?_, h2⟩
        rw [List.any_eq_true] at hpres
        push_neg at hpres
        intro he
        exact absurd (by simpa using he.symm) (hpres q hq)
      rw [strictNewest_iff hnd2]
      refine ⟨now, ?_, ?_⟩
      · rw [openCreate_files_neg fs _ now hpres]
        exact List.mem_cons_self _ _
      · intro g hg hne hpat
        rw [openCreate_files_neg fs _ now hpres] at hg
        rcases List.mem_cons.mp hg with he | hm
        · exact absurd (by rw [he]) hne
        · exact lt_of_le_of_lt (h3 g hm) hb
  · -- the warn stream is untouched
    show streamOk
        ((fs.openCreate (buildBase cfg mode now false) now).setLink
          (cfg.appName ++ ".log") (buildBase cfg mode now false))
        st.warnFile (cfg.appName ++ ".wf.log") (matchesWarn cfg)
        (matchesInfo cfg) = true
    cases hwf : st.warnFile with
    | none => rfl
    | some fw =>
      rw [hwf] at h5
      simp only [streamOk, Bool.and_eq_true] at h5 ⊢
      obtain ⟨⟨⟨hsn, hlk⟩, hpw⟩, hpo⟩ := h5
      have hfwne : fw ≠ buildBase cfg mode now false := by
        intro he
        rw [he] at hpo
        rw [matchesInfo_buildBase cfg mode now] at hpo
        simp at hpo
      refine ⟨⟨⟨?_, ?_⟩, hpw⟩, hpo⟩
      · rw [strictNewest_congr
          (fs.openCreate (buildBase cfg mode now false) now)
          ((fs.openCreate (buildBase cfg mode now false) now).setLink
            (cfg.appName ++ ".log") (buildBase cfg mode now false)) rfl]
        by_cases hpres : fs.files.any
            (fun p => p.1 == buildBase cfg mode now false) = true
        · rw [strictNewest_congr fs _ (openCreate_files_pos fs _ now hpres)]
          exact hsn
        · have hnd2 : ((fs.openCreate (buildBase cfg mode now false)
              now).files).Pairwise (fun p q => p.1 ≠ q.1) := by
            rw [openCreate_files_neg fs _ now hpres, List.pairwise_cons]
            refine ⟨fun q hq => ?_, h2⟩
            rw [List.any_eq_true] at hpres
            push_neg at hpres
            intro he
            exact absurd (by simpa using he.symm) (hpres q hq)
          obtain ⟨tfw, hmemw, hmaxw⟩ := (strictNewest_iff h2).mp hsn
          rw [strictNewest_iff hnd2]
          refine ⟨tfw, ?_, ?_⟩
          · rw [openCreate_files_neg fs _ now hpres]
            exact List.mem_cons_of_mem _ hmemw
          · intro g hg hne hpat
            rw [openCreate_files_neg fs _ now hpres] at hg
            rcases List.mem_cons.mp hg with he | hm
            · rw [he] at hpat
              rw [matchesWarn_buildBase_info cfg mode now] at hpat
              cases hpat
            · exact hmaxw g hm hne hpat
      · have hl2 : ((fs.openCreate (buildBase cfg mode now false) now).setLink
            (cfg.appName ++ ".log") (buildBase cfg mode now false)).linkOf
            (cfg.appName ++ ".wf.log")
            = fs.linkOf (cfg.appName ++ ".wf.log") := by
          rw [linkOf_setLink_other _ _ _ _ (link_names_ne cfg).symm]
          exact linkOf_openCreate fs _ now _
        rw [hl2]
        exact hlk

theorem Inv_openWarn (cfg : Config) (mode : RotateMode) (now : Nat)
    (st : HState) (fs : FS) (b : Nat)
    (hinv : Inv cfg st fs b) (hb : b ≤ now)
    (hstrict : ∀ p ∈ fs.files, matchesWarn cfg p.1 = true → p.2 < now)
    (hwf : st.warnFile = none)
    (hfresh : buildBase cfg mode now true ∈ fs.fileNames →
      strictNewest fs (matchesWarn cfg) (buildBase cfg mode now true) = true) :
    Inv cfg (openWarnStream cfg mode now st fs).1
      (openWarnStream cfg mode now st fs).2 now := by
  obtain ⟨h1, h2, h3, h4, h5⟩ := hinv
  refine ⟨?_, ?_, ?_, ?_, ?_⟩
  · show ((buildBase cfg mode now true :: fs.openHandles : List String) :
        Multiset String)
      = ↑(st.infoFile.toList ++ (some (buildBase cfg mode now true)).toList)
    rw [← Multiset.cons_coe, h1, hwf]
    have hr : ((st.infoFile.toList ++ [buildBase cfg mode now true] :
          List String) : Multiset String)
        = buildBase cfg mode now true ::ₘ (st.infoFile.toList : Multiset String) := by
      rw [← Multiset.coe_add, Multiset.coe_singleton, add_comm,
        Multiset.singleton_add]
    show _ = ((st.infoFile.toList ++ [buildBase cfg mode now true] :
        List String) : Multiset String)
    rw [hr]
    simp
  · show ((fs.openCreate (buildBase cfg mode now true) now).files).Pairwise
      (fun p q => p.1 ≠ q.1)
    by_cases hpres : fs.files.any
        (fun p => p.1 == buildBase cfg mode now true) = true
    · rw [openCreate_files_pos fs _ now hpres]
      exact h2
    · rw [openCreate_files_neg fs _ now hpres]
      rw [List.pairwise_cons]
      refine ⟨fun q hq => ?_, h2⟩
      rw [List.any_eq_true] at hpres
      push_neg at hpres
      intro he
      exact absurd (by simpa using he.symm) (hpres q hq)
  · show ∀ p ∈ (fs.openCreate (buildBase cfg mode now true) now).files,
      p.2 ≤ now
    by_cases hpres : fs.files.any
        (fun p => p.1 == buildBase cfg mode now true) = true
    · rw [openCreate_files_pos fs _ now hpres]
      exact fun p hp => le_trans (h3 p hp) hb
    · rw [openCreate_files_neg fs _ now hpres]
      intro p hp
      rcases List.mem_cons.mp hp with he | hm
      · rw [he]
      · exact le_trans (h3 p hm) hb
  · -- the info stream is untouched
    show streamOk
        ((fs.openCreate (buildBase cfg mode now true) now).setLink
          (cfg.appName ++ ".wf.log") (buildBase cfg mode now true))
        st.infoFile (cfg.appName ++ ".log") (matchesInfo cfg)
        (matchesWarn cfg) = true
    cases hif : st.infoFile with
    | none => rfl
    | some fi =>
      rw [hif] at h4
      simp only [streamOk, Bool.and_eq_true] at h4 ⊢
      obtain ⟨⟨⟨hsn, hlk⟩, hpi⟩, hpo⟩ := h4
      refine ⟨⟨⟨?_, ?_⟩, hpi⟩, hpo⟩
      · rw [strictNewest_congr
          (fs.openCreate (buildBase cfg mode now true) now)
          ((fs.openCreate (buildBase cfg mode now true) now).setLink
            (cfg.appName ++ ".wf.log") (buildBase cfg mode now true)) rfl]
        by_cases hpres : fs.files.any
            (fun p => p.1 == buildBase cfg mode now true) = true
        · rw [strictNewest_congr fs _ (openCreate_files_pos fs _ now hpres)]
          exact hsn
        · have hnd2 : ((fs.openCreate (buildBase cfg mode now true)
              now).files).Pairwise (fun p q => p.1 ≠ q.1) := by
            rw [openCreate_files_neg fs _ now hpres, List.pairwise_cons]
            refine ⟨fun q hq => ?_, h2⟩
            rw [List.any_eq_true] at hpres
            push_neg at hpres
            intro he
            exact absurd (by simpa using he.symm) (hpres q hq)
          obtain ⟨tfi, hmemi, hmaxi⟩ := (strictNewest_iff h2).mp hsn
          rw [strictNewest_iff hnd2]
          refine ⟨tfi, ?_, ?_⟩
          · rw [openCreate_files_neg fs _ now hpres]
            exact List.mem_cons_of_mem _ hmemi
          · intro g hg hne hpat
            rw [openCreate_files_neg fs _ now hpres] at hg
            rcases List.mem_cons.mp hg with he | hm
            · rw [he] at hpat
              rw [matchesInfo_buildBase_warn cfg mode now] at hpat
              cases hpat
            · exact hmaxi g hm hne hpat
      · have hl2 : ((fs.openCreate (buildBase cfg mode now true) now).setLink
            (cfg.appName ++ ".wf.log") (buildBase cfg mode now true)).linkOf
            (cfg.appName ++ ".log")
            = fs.linkOf (cfg.appName ++ ".log") := by
          rw [linkOf_setLink_other _ _ _ _ (link_names_ne cfg)]
          exact linkOf_openCreate fs _ now _
        rw [hl2]
        exact hlk
  · -- the warn stream: fresh file, fresh link
    show (strictNewest
          ((fs.openCreate (buildBase cfg mode now true) now).setLink
            (cfg.appName ++ ".wf.log") (buildBase cfg mode now true))
          (matchesWarn cfg) (buildBase cfg mode now true)
        && (((fs.openCreate (buildBase cfg mode now true) now).setLink
            (cfg.appName ++ ".wf.log")
            (buildBase cfg mode now true)).linkOf (cfg.appName ++ ".wf.log")
          == some (buildBase cfg mode now true))
        && matchesWarn cfg (buildBase cfg mode now true)
        && !(matchesInfo cfg (buildBase cfg mode now true))) = true
    rw [linkOf_setLink_self, matchesWarn_buildBase, matchesInfo_buildBase_warn,
      strictNewest_congr (fs.openCreate (buildBase cfg mode now true) now)
        ((fs.openCreate (buildBase cfg mode now true) now).setLink
          (cfg.appName ++ ".wf.log") (buildBase cfg mode now true)) rfl]
    simp only [beq_self_eq_true, Bool.and_true, Bool.not_false]
    by_cases hpres : fs.files.any
        (fun p => p.1 == buildBase cfg mode now true) = true
    · rw [strictNewest_congr fs _ (openCreate_files_pos fs _ now hpres)]
      exact hfresh (mem_fileNames_of_any hpres)
    · have hnd2 : ((fs.openCreate (buildBase cfg mode now true)
          now).files).Pairwise (fun p q => p.1 ≠ q.1) := by
        rw [openCreate_files_neg fs _ now hpres, List.pairwise_cons]
        refine ⟨fun q hq => ?_, h2⟩
        rw [List.any_eq_true] at hpres
        push_neg at hpres
        intro he
        exact absurd (by simpa using he.symm) (hpres q hq)
      rw [strictNewest_iff hnd2]
      refine ⟨now, ?_, ?_⟩
      · rw [openCreate_files_neg fs _ now hpres]
        exact List.mem_cons_self _ _
      · intro g hg hne hpat
        rw [openCreate_files_neg fs _ now hpres] at hg
        rcases List.mem_cons.mp hg with he | hm
        · exact absurd (by rw [he]) hne
        · exact hstrict g hm hpat

theorem streamOk_removeAll (fs : FS) (del : List String)
    (file : Option String) (link : String) (pat patOther : String → Bool)
    (hnd : fs.files.Pairwise (fun p q => p.1 ≠ q.1))
    (hok : streamOk fs file link pat patOther = true)
    (hkeep : ∀ f, file = some f → ¬ f ∈ del) :
    streamOk (fs.removeAll del) file link pat patOther = true := by
  cases file with
  | none => rfl
  | some f =>
    simp only [streamOk, Bool.and_eq_true] at hok ⊢
    obtain ⟨⟨⟨hsn, hlk⟩, hp⟩, hpo⟩ := hok
    have hkf := hkeep f rfl
    refine ⟨⟨⟨?_, ?_⟩, hp⟩, hpo⟩
    · have hnd2 : ((fs.removeAll del).files).Pairwise
          (fun p q => p.1 ≠ q.1) := List.Pairwise.filter _ hnd
      obtain ⟨tf, hmem, hmax⟩ := (strictNewest_iff hnd).mp hsn
      rw [strictNewest_iff hnd2]
      refine ⟨tf, ?_, ?_⟩
      · show (f, tf) ∈ fs.files.filter _
        rw [List.mem_filter]
        refine ⟨hmem, ?_⟩
        simpa using hkf
      · intro g hg hne hpat
        exact hmax g (List.mem_of_mem_filter hg) hne hpat
    · exact hlk

/-- The info-stream sweep deletes nothing either stream has open. -/
theorem Inv_removeAll_info_sweep (cfg : Config) (st : HState) (fs : FS)
    (b : Nat) (N : Nat) (hN : 1 ≤ N) (hinv : Inv cfg st fs b) :
    Inv cfg st
      (fs.removeAll (cleanupOldFiles N (infoPre cfg) (some fs.entries))) b := by
  obtain ⟨h1, h2, h3, h4, h5⟩ := hinv
  refine ⟨h1, List.Pairwise.filter _ h2,
    fun p hp => h3 p (List.mem_of_mem_filter hp), ?_, ?_⟩
  · refine streamOk_removeAll fs _ _ _ _ _ h2 h4 fun f hf => ?_
    rw [hf] at h4
    simp only [streamOk, Bool.and_eq_true] at h4
    obtain ⟨⟨⟨hsn, -⟩, -⟩, -⟩ := h4
    exact cleanup_keeps fs (infoPre cfg) f N hN h2 (Or.inr hsn)
  · refine streamOk_removeAll fs _ _ _ _ _ h2 h5 fun f hf => ?_
    rw [hf] at h5
    simp only [streamOk, Bool.and_eq_true] at h5
    obtain ⟨⟨⟨-, -⟩, -⟩, hpo⟩ := h5
    refine cleanup_keeps fs (infoPre cfg) f N hN h2 (Or.inl ?_)
    show matchesInfo cfg f = false
    simpa using hpo

/-- The warn-stream sweep deletes nothing either stream has open. -/
theorem Inv_removeAll_warn_sweep (cfg : Config) (st : HState) (fs : FS)
    (b : Nat) (N : Nat) (hN : 1 ≤ N) (hinv : Inv cfg st fs b) :
    Inv cfg st
      (fs.removeAll (cleanupOldFiles N (warnPre cfg) (some fs.entries))) b := by
  obtain ⟨h1, h2, h3, h4, h5⟩ := hinv
  refine ⟨h1, List.Pairwise.filter _ h2,
    fun p hp => h3 p (List.mem_of_mem_filter hp), ?_, ?_⟩
  · refine streamOk_removeAll fs _ _ _ _ _ h2 h4 fun f hf => ?_
    rw [hf] at h4
    simp only [streamOk, Bool.and_eq_true] at h4
    obtain ⟨⟨⟨-, -⟩, -⟩, hpo⟩ := h4
    refine cleanup_keeps fs (warnPre cfg) f N hN h2 (Or.inl ?_)
    show matchesWarn cfg f = false
    simpa using hpo
  · refine streamOk_removeAll fs _ _ _ _ _ h2 h5 fun f hf => ?_
    rw [hf] at h5
    simp only [streamOk, Bool.and_eq_true] at h5
    obtain ⟨⟨⟨hsn, -⟩, -⟩, -⟩ := h5
    exact cleanup_keeps fs (warnPre cfg) f N hN h2 (Or.inr hsn)

theorem removeAll_cleanup_none (fs : FS) (N : Nat) (pre : String) :
    fs.removeAll (cleanupOldFiles N pre none) = fs := by
  simp [cleanupOldFiles, FS.removeAll]

theorem Inv_applyCleanups (cfg : Config) (env : OpenEnv) (st : HState)
    (fs : FS) (b : Nat) (hinv : Inv cfg st fs b) :
    Inv cfg st (applyCleanups cfg env fs) b := by
  unfold applyCleanups
  by_cases hmb : 0 < cfg.maxBackups
  · rw [if_pos hmb]
    have hN : 1 ≤ cfg.maxBackups.toNat := by omega
    by_cases hrd : env.readDirOk = true
    · simp only [hrd, if_true]
      exact Inv_removeAll_warn_sweep cfg st _ b _ hN
        (Inv_removeAll_info_sweep cfg st fs b _ hN hinv)
    · simp only [hrd, Bool.false_eq_true, if_false]
      rw [removeAll_cleanup_none, removeAll_cleanup_none]
      exact hinv
  · rw [if_neg hmb]
    exact hinv

/-! ### Field lemmas for the rotation phases -/

theorem closeInfo_infoFile_true (st : HState) (fs : FS) :
    (closeInfo true st fs).1.infoFile = none := by
  unfold closeInfo
  cases h : st.infoFile <;> simp [h]

theorem closeInfo_infoFile_false (st : HState) (fs : FS) :
    (closeInfo false st fs).1.infoFile = st.infoFile := rfl

theorem closeInfo_warnFile (nn : Bool) (st : HState) (fs : FS) :
    (closeInfo nn st fs).1.warnFile = st.warnFile := by
  unfold closeInfo
  cases nn <;> cases h : st.infoFile <;> simp [h]

theorem closeInfo_files (nn : Bool) (st : HState) (fs : FS) :
    (closeInfo nn st fs).2.files = fs.files := by
  unfold closeInfo
  cases nn <;> cases h : st.infoFile <;> simp [h, FS.closeFile]

theorem closeInfo_links (nn : Bool) (st : HState) (fs : FS) :
    (closeInfo nn st fs).2.links = fs.links := by
  unfold closeInfo
  cases nn <;> cases h : st.infoFile <;> simp [h, FS.closeFile]

theorem closeWarn_warnFile_true (st : HState) (fs : FS) :
    (closeWarn true st fs).1.warnFile = none := by
  unfold closeWarn
  cases h : st.warnFile <;> simp [h]

theorem closeWarn_warnFile_false (st : HState) (fs : FS) :
    (closeWarn false st fs).1.warnFile = st.warnFile := rfl

theorem closeWarn_infoFile (nw : Bool) (st : HState) (fs : FS) :
    (closeWarn nw st fs).1.infoFile = st.infoFile := by
  unfold closeWarn
  cases nw <;> cases h : st.warnFile <;> simp [h]

theorem closeWarn_files (nw : Bool) (st : HState) (fs : FS) :
    (closeWarn nw st fs).2.files = fs.files := by
  unfold closeWarn
  cases nw <;> cases h : st.warnFile <;> simp [h, FS.closeFile]

theorem closeWarn_links (nw : Bool) (st : HState) (fs : FS) :
    (closeWarn nw st fs).2.links = fs.links := by
  unfold closeWarn
  cases nw <;> cases h : st.warnFile <;> simp [h, FS.closeFile]

theorem buildBase_info_ne_warn (cfg : Config) (mode : RotateMode) (now : Nat) :
    buildBase cfg mode now false ≠ buildBase cfg mode now true := by
  intro h
  have hw := matchesWarn_buildBase cfg mode now
  rw [← h, matchesWarn_buildBase_info] at hw
  cases hw

/-- An open of a file whose name fails `pat` cannot disturb `pat`-newestness
of a different file. -/
theorem strictNewest_openCreate_other (fs : FS) (name : String) (now : Nat)
    (pat : String → Bool) (f : String)
    (hnd : fs.files.Pairwise (fun p q => p.1 ≠ q.1))
    (hpatname : pat name = false)
    (h : strictNewest fs pat f = true) :
    strictNewest (fs.openCreate name now) pat f = true := by
  by_cases hpres : fs.files.any (fun p => p.1 == name) = true
  · rw [strictNewest_congr fs _ (openCreate_files_pos fs _ now hpres)]
    exact h
  · have hnd2 : ((fs.openCreate name now).files).Pairwise
        (fun p q => p.1 ≠ q.1) := by
      rw [openCreate_files_neg fs _ now hpres, List.pairwise_cons]
      refine ⟨fun q hq => ?_, hnd⟩
      rw [List.any_eq_true] at hpres
      push_neg at hpres
      intro he
      exact absurd (by simpa using he.symm) (hpres q hq)
    obtain ⟨tf, hmem, hmax⟩ := (strictNewest_iff hnd).mp h
    rw [strictNewest_iff hnd2]
    refine ⟨tf, ?_, ?_⟩
    · rw [openCreate_files_neg fs _ now hpres]
      exact List.mem_cons_of_mem _ hmem
    · intro g hg hgne hpat
      rw [openCreate_files_neg fs _ now hpres] at hg
      rcases List.mem_cons.mp hg with he | hm
      · rw [he] at hpat
        rw [hpatname] at hpat
        cases hpat
      · exact hmax g hm hgne hpat

theorem mem_fileNames_openCreate {fs : FS} {name : String} {now : Nat}
    {f : String} (h : f ∈ (fs.openCreate name now).fileNames) :
    f = name ∨ f ∈ fs.fileNames := by
  by_cases hpres : fs.files.any (fun p => p.1 == name) = true
  · right
    unfold FS.fileNames at h ⊢
    rw [openCreate_files_pos fs _ now hpres] at h
    exact h
  · unfold FS.fileNames at h ⊢
    rw [openCreate_files_neg fs _ now hpres] at h
    simpa using h

/-- One full rotation check preserves the pipeline invariant, advancing its
clock bound to `now`.  The freshness hypotheses say the names the rotation
would build at `now` are either absent or already the streams' current
files. -/
theorem rotate_preserves_inv (cfg : Config) (env : OpenEnv) (st : HState)
    (fs : FS) (b now : Nat)
    (hinv : Inv cfg st fs b) (hb : b < now)
    (hfresh_i : ∀ mode, cfg.rotate = some mode →
      buildBase cfg mode now false ∈ fs.fileNames →
        st.infoFile = some (buildBase cfg mode now false))
    (hfresh_w : ∀ mode, cfg.rotate = some mode →
      buildBase cfg mode now true ∈ fs.fileNames →
        st.warnFile = some (buildBase cfg mode now true)) :
    Inv cfg (rotateIfNeededLocked cfg env st fs now).st
      (rotateIfNeededLocked cfg env st fs now).fs now := by
  cases hmode : cfg.rotate with
  | none =>
    unfold rotateIfNeededLocked
    rw [hmode]
    exact Inv_mono cfg st fs hinv (le_of_lt hb)
  | some mode =>
    -- the freshness hypotheses, restated through the pre-state invariant
    have hfi' : buildBase cfg mode now false ∈ fs.fileNames →
        strictNewest fs (matchesInfo cfg) (buildBase cfg mode now false)
          = true := by
      intro hmem
      have h4 := hinv.2.2.2.1
      rw [hfresh_i mode hmode hmem] at h4
      simp only [streamOk, Bool.and_eq_true] at h4
      exact h4.1.1.1
    have hfw' : buildBase cfg mode now true ∈ fs.fileNames →
        strictNewest fs (matchesWarn cfg) (buildBase cfg mode now true)
          = true := by
      intro hmem
      have h5 := hinv.2.2.2.2
      rw [hfresh_w mode hmode hmem] at h5
      simp only [streamOk, Bool.and_eq_true] at h5
      exact h5.1.1.1
    have hd : Inv cfg (rotateDecision mode cfg st now).st fs b :=
      Inv_decision cfg mode st now fs b hinv
    -- invariant and directory facts after the two conditional closes
    have hc2 : ∀ nn nw : Bool,
        Inv cfg
          (closeWarn nw
            (closeInfo nn (rotateDecision mode cfg st now).st fs).1
            (closeInfo nn (rotateDecision mode cfg st now).st fs).2).1
          (closeWarn nw
            (closeInfo nn (rotateDecision mode cfg st now).st fs).1
            (closeInfo nn (rotateDecision mode cfg st now).st fs).2).2 b :=
      fun nn nw => Inv_closeWarn cfg nw _ _ b
        (Inv_closeInfo cfg nn (rotateDecision mode cfg st now).st fs b hd)
    have hcf : ∀ nn nw : Bool,
        (closeWarn nw
          (closeInfo nn (rotateDecision mode cfg st now).st fs).1
          (closeInfo nn (rotateDecision mode cfg st now).st fs).2).2.files
          = fs.files := by
      intro nn nw
      rw [closeWarn_files, closeInfo_files]
    have hcn : ∀ nn nw : Bool,
        (closeWarn nw
          (closeInfo nn (rotateDecision mode cfg st now).st fs).1
          (closeInfo nn (rotateDecision mode cfg st now).st fs).2).2.fileNames
          = fs.fileNames := by
      intro nn nw
      unfold FS.fileNames
      rw [hcf nn nw]
    -- invariant after a successful info open (needNew was true)
    have ho1 : ∀ nw : Bool,
        Inv cfg
          (openInfoStream cfg mode now
            (closeWarn nw
              (closeInfo true (rotateDecision mode cfg st now).st fs).1
              (closeInfo true (rotateDecision mode cfg st now).st fs).2).1
            (closeWarn nw
              (closeInfo true (rotateDecision mode cfg st now).st fs).1
              (closeInfo true (rotateDecision mode cfg st now).st fs).2).2).1
          (openInfoStream cfg mode now
            (closeWarn nw
              (closeInfo true (rotateDecision mode cfg st now).st fs).1
              (closeInfo true (rotateDecision mode cfg st now).st fs).2).1
            (closeWarn nw
              (closeInfo true (rotateDecision mode cfg st now).st fs).1
              (closeInfo true (rotateDecision mode cfg st now).st fs).2).2).2
          now := by
      intro nw
      refine Inv_openInfo cfg mode now _ _ b (hc2 true nw) hb ?_ ?_
      · rw [closeWarn_infoFile, closeInfo_infoFile_true]
      · intro hmem
        rw [hcn true nw] at hmem
        rw [strictNewest_congr fs _ (hcf true nw)]
        exact hfi' hmem
    -- invariant after both opens succeeded (needNew and needWarnNew true)
    have ho2 : Inv cfg
        (openWarnStream cfg mode now
          (openInfoStream cfg mode now
            (closeWarn true
              (closeInfo true (rotateDecision mode cfg st now).st fs).1
              (closeInfo true (rotateDecision mode cfg st now).st fs).2).1
            (closeWarn true
              (closeInfo true (rotateDecision mode cfg st now).st fs).1
              (closeInfo true (rotateDecision mode cfg st now).st fs).2).2).1
          (openInfoStream cfg mode now
            (closeWarn true
              (closeInfo true (rotateDecision mode cfg st now).st fs).1
              (closeInfo true (rotateDecision mode cfg st now).st fs).2).1
            (closeWarn true
              (closeInfo true (rotateDecision mode cfg st now).st fs).1
              (closeInfo true (rotateDecision mode cfg st now).st fs).2).2).2).1
        (openWarnStream cfg mode now
          (openInfoStream cfg mode now
            (closeWarn true
              (closeInfo true (rotateDecision mode cfg st now).st fs).1
              (closeInfo true (rotateDecision mode cfg st now).st fs).2).1
            (closeWarn true
              (closeInfo true (rotateDecision mode cfg st now).st fs).1
              (closeInfo true (rotateDecision mode cfg st now).st fs).2).2).1
          (openInfoStream cfg mode now
            (closeWarn true
              (closeInfo true (rotateDecision mode cfg st now).st fs).1
              (closeInfo true (rotateDecision mode cfg st now).st fs).2).1
            (closeWarn true
              (closeInfo true (rotateDecision mode cfg st now).st fs).1
              (closeInfo true (rotateDecision mode cfg st now).st fs).2).2).2).2
        now := by
      refine Inv_openWarn cfg mode now _ _ now (ho1 true) (le_refl now)
        ?_ ?_ ?_
      · -- every warn-matching file is still strictly older than `now`
        intro p hp hpat
        have hp2 : p ∈
            ((closeWarn true
              (closeInfo true (rotateDecision mode cfg st now).st fs).1
              (closeInfo true (rotateDecision mode cfg st now).st
                fs).2).2.openCreate (buildBase cfg mode now false)
              now).files := hp
        by_cases hpres : (closeWarn true
            (closeInfo true (rotateDecision mode cfg st now).st fs).1
            (closeInfo true (rotateDecision mode cfg st now).st
              fs).2).2.files.any
            (fun q => q.1 == buildBase cfg mode now false) = true
        · rw [openCreate_files_pos _ _ now hpres] at hp2
          rw [hcf true true] at hp2
          exact lt_of_le_of_lt (hinv.2.2.1 p hp2) hb
        · rw [openCreate_files_neg _ _ now hpres] at hp2
          rcases List.mem_cons.mp hp2 with he | hm
          · rw [he] at hpat
            have hx : matchesWarn cfg (buildBase cfg mode now false)
                = true := hpat
            rw [matchesWarn_buildBase_info cfg mode now] at hx
            cases hx
          · rw [hcf true true] at hm
            exact lt_of_le_of_lt (hinv.2.2.1 p hm) hb
      · exact closeWarn_warnFile_true _ _
      · -- the warn name stays strictly newest through the info open
        intro hmem
        have hmem2 : buildBase cfg mode now true ∈
            ((closeWarn true
              (closeInfo true (rotateDecision mode cfg st now).st fs).1
              (closeInfo true (rotateDecision mode cfg st now).st
                fs).2).2.openCreate (buildBase cfg mode now false)
              now).fileNames := hmem
        rcases mem_fileNames_openCreate hmem2 with he | hm
        · exact absurd he.symm (buildBase_info_ne_warn cfg mode now)
        · rw [hcn true true] at hm
          have hs2 : strictNewest
              (closeWarn true
                (closeInfo true (rotateDecision mode cfg st now).st fs).1
                (closeInfo true (rotateDecision mode cfg st now).st fs).2).2
              (matchesWarn cfg) (buildBase cfg mode now true) = true := by
            rw [strictNewest_congr fs _ (hcf true true)]
            exact hfw' hm
          have hs3 := strictNewest_openCreate_other
            (closeWarn true
              (closeInfo true (rotateDecision mode cfg st now).st fs).1
              (closeInfo true (rotateDecision mode cfg st now).st fs).2).2
            (buildBase cfg mode now false) now (matchesWarn cfg)
            (buildBase cfg mode now true) (hc2 true true).2.1
            (matchesWarn_buildBase_info cfg mode now) hs2
          show strictNewest
            (((closeWarn true
              (closeInfo true (rotateDecision mode cfg st now).st fs).1
              (closeInfo true (rotateDecision mode cfg st now).st
                fs).2).2.openCreate (buildBase cfg mode now false)
              now).setLink (cfg.appName ++ ".log")
              (buildBase cfg mode now false))
            (matchesWarn cfg) (buildBase cfg mode now true) = true
          rw [strictNewest_congr
            ((closeWarn true
              (closeInfo true (rotateDecision mode cfg st now).st fs).1
              (closeInfo true (rotateDecision mode cfg st now).st
                fs).2).2.openCreate (buildBase cfg mode now false) now)
            (((closeWarn true
              (closeInfo true (rotateDecision mode cfg st now).st fs).1
              (closeInfo true (rotateDecision mode cfg st now).st
                fs).2).2.openCreate (buildBase cfg mode now false)
              now).setLink (cfg.appName ++ ".log")
              (buildBase cfg mode now false)) rfl]
          exact hs3
    -- invariant after a lone warn open (needNew false, needWarnNew true)
    have hoB : Inv cfg
        (openWarnStream cfg mode now
          (closeWarn true
            (closeInfo false (rotateDecision mode cfg st now).st fs).1
            (closeInfo false (rotateDecision mode cfg st now).st fs).2).1
          (closeWarn true
            (closeInfo false (rotateDecision mode cfg st now).st fs).1
            (closeInfo false (rotateDecision mode cfg st now).st fs).2).2).1
        (openWarnStream cfg mode now
          (closeWarn true
            (closeInfo false (rotateDecision mode cfg st now).st fs).1
            (closeInfo false (rotateDecision mode cfg st now).st fs).2).1
          (closeWarn true
            (closeInfo false (rotateDecision mode cfg st now).st fs).1
            (closeInfo false (rotateDecision mode cfg st now).st fs).2).2).2
        now := by
      refine Inv_openWarn cfg mode now _ _ b (hc2 false true) (le_of_lt hb)
        ?_ ?_ ?_
      · intro p hp hpat
        rw [hcf false true] at hp
        exact lt_of_le_of_lt (hinv.2.2.1 p hp) hb
      · exact closeWarn_warnFile_true _ _
      · intro hmem
        rw [hcn false true] at hmem
        rw [strictNewest_congr fs _ (hcf false true)]
        exact hfw' hmem
    rw [rotate_eq_phases cfg mode env st fs now hmode]
    by_cases h0 : ¬ (rotateDecision mode cfg st now).needNew
        ∧ ¬ (rotateDecision mode cfg st now).needWarnNew
    · simp only [h0, if_true]
      exact Inv_mono _ _ _ hd (le_of_lt hb)
    · by_cases hmk : env.mkdirOk
      swap
      · simp only [h0, hmk, if_false, if_true, not_false_eq_true,
          eq_self_iff_true]
        exact Inv_mono _ _ _ (hc2 _ _) (le_of_lt hb)
      · by_cases hio2 : env.infoOpenOk
        swap
        · cases hnn : (rotateDecision mode cfg st now).needNew with
          | true =>
            simp only [h0, hmk, hio2, hnn, if_false, if_true, not_true,
              not_false_eq_true, eq_self_iff_true, and_false, false_and,
              and_true, true_and, and_self]
            exact Inv_mono _ _ _ (hc2 true _) (le_of_lt hb)
          | false =>
            have hnwt : (rotateDecision mode cfg st now).needWarnNew
                = true := by
              cases hw : (rotateDecision mode cfg st now).needWarnNew
              · exact absurd ⟨by simp [hnn], by simp [hw]⟩ h0
              · rfl
            by_cases hwo : env.warnOpenOk
            · simp only [h0, hmk, hio2, hnn, hnwt, hwo, if_false, if_true,
                not_true, not_false_eq_true, eq_self_iff_true, and_false,
                false_and, and_true, true_and, and_self, Bool.false_eq_true]
              exact Inv_applyCleanups cfg env _ _ now hoB
            · simp only [h0, hmk, hio2, hnn, hnwt, hwo, if_false, if_true,
                not_true, not_false_eq_true, eq_self_iff_true, and_false,
                false_and, and_true, true_and, and_self, Bool.false_eq_true]
              exact Inv_mono _ _ _ (hc2 false true) (le_of_lt hb)
        · cases hnn : (rotateDecision mode cfg st now).needNew with
          | true =>
            cases hnw : (rotateDecision mode cfg st now).needWarnNew with
            | true =>
              by_cases hwo : env.warnOpenOk
              · simp only [h0, hmk, hio2, hnn, hnw, hwo, if_false, if_true,
                  not_true, not_false_eq_true, eq_self_iff_true, and_false,
                  false_and, and_true, true_and, and_self]
                exact Inv_applyCleanups cfg env _ _ now ho2
              · simp only [h0, hmk, hio2, hnn, hnw, hwo, if_false, if_true,
                  not_true, not_false_eq_true, eq_self_iff_true, and_false,
                  false_and, and_true, true_and, and_self]
                exact ho1 true
            | false =>
              simp only [h0, hmk, hio2, hnn, hnw, if_false, if_true,
                not_true, not_false_eq_true, eq_self_iff_true, and_false,
                false_and, and_true, true_and, and_self, Bool.false_eq_true]
              exact Inv_applyCleanups cfg env _ _ now (ho1 false)
          | false =>
            have hnwt : (rotateDecision mode cfg st now).needWarnNew
                = true := by
              cases hw : (rotateDecision mode cfg st now).needWarnNew
              · exact absurd ⟨by simp [hnn], by simp [hw]⟩ h0
              · rfl
            by_cases hwo : env.warnOpenOk
            · simp only [h0, hmk, hio2, hnn, hnwt, hwo, if_false, if_true,
                not_true, not_false_eq_true, eq_self_iff_true, and_false,
                false_and, and_true, true_and, and_self, Bool.false_eq_true]
              exact Inv_applyCleanups cfg env _ _ now hoB
            · simp only [h0, hmk, hio2, hnn, hnwt, hwo, if_false, if_true,
                not_true, not_false_eq_true, eq_self_iff_true, and_false,
                false_and, and_true, true_and, and_self, Bool.false_eq_true]
              exact Inv_mono _ _ _ (hc2 false true) (le_of_lt hb)

/-! ### `WriteString` (modified time bump) against the invariant -/

theorem find?_update_other {n : String} {t : Nat} {f : String} (hne : f ≠ n) :
    ∀ l : List (String × Nat),
      ((l.map fun p => if p.1 == n then (p.1, t) else p).find?
          fun p => p.1 == f)
        = l.find? fun p => p.1 == f
  | [] => rfl
  | p :: l => by
    rw [List.map_cons]
    by_cases hp : (p.1 == n) = true
    · have hp1 : p.1 = n := by simpa using hp
      have hpf : ¬ ((p.1 == f) = true) := by
        intro h
        exact Ne.symm hne (hp1 ▸ (by simpa using h))
      rw [if_pos hp,
        List.find?_cons_of_neg (p := fun q => q.1 == f)
          (a := ((p.1 : String), t)) _ hpf,
        List.find?_cons_of_neg (p := fun q => q.1 == f) (a := p) _ hpf]
      exact find?_update_other hne l
    · rw [if_neg hp]
      by_cases hpf : (p.1 == f) = true
      · rw [List.find?_cons_of_pos (p := fun q => q.1 == f) (a := p) _ hpf,
          List.find?_cons_of_pos (p := fun q => q.1 == f) (a := p) _ hpf]
      · rw [List.find?_cons_of_neg (p := fun q => q.1 == f) (a := p) _ hpf,
          List.find?_cons_of_neg (p := fun q => q.1 == f) (a := p) _ hpf]
        exact find?_update_other hne l

theorem find?_update_self {n : String} {t : Nat} :
    ∀ l : List (String × Nat),
      (((l.map fun p => if p.1 == n then (p.1, t) else p).find?
          fun p => p.1 == n).map (·.2))
        = ((l.find? fun p => p.1 == n).map (·.2)).map fun _ => t
  | [] => rfl
  | p :: l => by
    rw [List.map_cons]
    by_cases hp : (p.1 == n) = true
    · rw [if_pos hp,
        List.find?_cons_of_pos (p := fun q => q.1 == n)
          (a := ((p.1 : String), t)) _ hp,
        List.find?_cons_of_pos (p := fun q => q.1 == n) (a := p) _ hp]
      rfl
    · rw [if_neg hp,
        List.find?_cons_of_neg (p := fun q => q.1 == n) (a := p) _ hp,
        List.find?_cons_of_neg (p := fun q => q.1 == n) (a := p) _ hp]
      exact find?_update_self l

theorem timeOf_writeFile_other {fs : FS} {n : String} {t : Nat} {f : String}
    (hne : f ≠ n) : (fs.writeFile n t).timeOf f = fs.timeOf f := by
  show ((fs.files.map fun p => if p.1 == n then (p.1, t) else p).find?
      fun p => p.1 == f).map (·.2) = _
  rw [find?_update_other hne fs.files]
  rfl

theorem timeOf_writeFile_self {fs : FS} {n : String} {t told : Nat}
    (h : fs.timeOf n = some told) :
    (fs.writeFile n t).timeOf n = some t := by
  show (((fs.files.map fun p => if p.1 == n then (p.1, t) else p).find?
      fun p => p.1 == n).map (·.2)) = some t
  rw [find?_update_self fs.files]
  rw [show ((fs.files.find? fun p => p.1 == n).map (·.2)) = some told from h]
  rfl

theorem writeFile_fileNames (fs : FS) (n : String) (t : Nat) :
    (fs.writeFile n t).fileNames = fs.fileNames := by
  show (fs.files.map fun p => if p.1 == n then (p.1, t) else p).map (·.1)
      = fs.files.map (·.1)
  induction fs.files with
  | nil => rfl
  | cons p l ih =>
    by_cases h : p.1 == n <;> simp_all

theorem pairwise_writeFile {fs : FS} {n : String} {t : Nat}
    (h : fs.files.Pairwise fun p q => p.1 ≠ q.1) :
    ((fs.writeFile n t).files).Pairwise fun p q => p.1 ≠ q.1 := by
  show ((fs.files.map fun p => if p.1 == n then (p.1, t) else p)).Pairwise _
  rw [List.pairwise_map]
  refine h.imp ?_
  intro a c hne
  by_cases ha : a.1 == n <;> by_cases hc : c.1 == n <;> simp [ha, hc, hne]

theorem bound_writeFile {fs : FS} {n : String} {t b : Nat}
    (h : ∀ p ∈ fs.files, p.2 ≤ b) (ht : t ≤ b) :
    ∀ p ∈ (fs.writeFile n t).files, p.2 ≤ b := by
  intro p hp
  have hp2 : p ∈ fs.files.map fun q => if q.1 == n then (q.1, t) else q := hp
  rcases List.mem_map.mp hp2 with ⟨q, hq, rfl⟩
  by_cases hqn : q.1 == n
  · rw [if_pos hqn]
    exact ht
  · rw [if_neg hqn]
    exact h q hq

theorem strictNewest_writeFile_self {fs : FS} {n : String} {t : Nat}
    {pat : String → Bool}
    (hbound : ∀ p ∈ fs.files, p.2 ≤ t)
    (h : strictNewest fs pat n = true) :
    strictNewest (fs.writeFile n t) pat n = true := by
  unfold strictNewest at h ⊢
  cases ht : fs.timeOf n with
  | none =>
    rw [ht] at h
    cases h
  | some told =>
    rw [ht] at h
    have htold : told ≤ t := by
      have ht2 : ((fs.files.find? fun p => p.1 == n).map (·.2))
          = some told := ht
      rcases Option.map_eq_some'.mp ht2 with ⟨q, hfind, hq2⟩
      have hqmem := List.mem_of_find?_eq_some hfind
      rw [← hq2]
      exact hbound q hqmem
    rw [timeOf_writeFile_self ht]
    show (fs.files.map fun p => if p.1 == n then (p.1, t) else p).all
        (fun g => g.1 == n || !(pat g.1) || decide (g.2 < t)) = true
    rw [List.all_map]
    rw [List.all_eq_true] at h ⊢
    intro p hp
    have hcond := h p hp
    simp only [Function.comp]
    by_cases hpn : (p.1 == n) = true
    · simp [hpn]
    · have hpn2 : (p.1 == n) = false := by
        cases hx : (p.1 == n)
        · rfl
        · exact absurd hx hpn
      simp only [hpn2, Bool.false_eq_true, if_false, Bool.false_or,
        Bool.or_eq_true] at hcond ⊢
      rcases hcond with hc | hc
      · exact Or.inl hc
      · rw [decide_eq_true_eq] at hc
        exact Or.inr (by rw [decide_eq_true_eq]; exact lt_of_lt_of_le hc htold)

theorem strictNewest_writeFile_other {fs : FS} {n : String} {t : Nat}
    {pat : String → Bool} {f : String}
    (hne : f ≠ n) (hpn : pat n = false)
    (h : strictNewest fs pat f = true) :
    strictNewest (fs.writeFile n t) pat f = true := by
  unfold strictNewest at h ⊢
  rw [timeOf_writeFile_other hne]
  cases ht : fs.timeOf f with
  | none =>
    rw [ht] at h
    exact h
  | some tf =>
    rw [ht] at h
    have h2 : fs.files.all
        (fun g => g.1 == f || !(pat g.1) || decide (g.2 < tf)) = true := h
    show (fs.files.map fun p => if p.1 == n then (p.1, t) else p).all
        (fun g => g.1 == f || !(pat g.1) || decide (g.2 < tf)) = true
    rw [List.all_map]
    rw [List.all_eq_true] at h2 ⊢
    intro p hp
    have hcond := h2 p hp
    simp only [Function.comp]
    by_cases hpn2 : (p.1 == n) = true
    · have hp1 : p.1 = n := by simpa using hpn2
      simp [hpn2, hp1, hpn, fun hx : n = f => hne hx.symm]
    · have hpn3 : (p.1 == n) = false := by
        cases hx : (p.1 == n)
        · rfl
        · exact absurd hx hpn2
      simp only [hpn3, Bool.false_eq_true, if_false]
      exact hcond

theorem streamOk_writeFile_self {fs : FS} {n : String} {t : Nat}
    {link : String} {pat patOther : String → Bool}
    (hbound : ∀ p ∈ fs.files, p.2 ≤ t)
    (hok : streamOk fs (some n) link pat patOther = true) :
    streamOk (fs.writeFile n t) (some n) link pat patOther = true := by
  simp only [streamOk, Bool.and_eq_true] at hok ⊢
  obtain ⟨⟨⟨hsn, hlk⟩, hp⟩, hpo⟩ := hok
  exact ⟨⟨⟨strictNewest_writeFile_self hbound hsn, hlk⟩, hp⟩, hpo⟩

theorem streamOk_writeFile_other {fs : FS} {n : String} {t : Nat}
    {file : Option String} {link : String} {pat patOther : String → Bool}
    (hpn : pat n = false)
    (hok : streamOk fs file link pat patOther = true) :
    streamOk (fs.writeFile n t) file link pat patOther = true := by
  cases file with
  | none => rfl
  | some f =>
    simp only [streamOk, Bool.and_eq_true] at hok ⊢
    obtain ⟨⟨⟨hsn, hlk⟩, hp⟩, hpo⟩ := hok
    have hne : f ≠ n := by
      intro he
      rw [he, hpn] at hp
      cases hp
    exact ⟨⟨⟨strictNewest_writeFile_other hne hpn hsn, hlk⟩, hp⟩, hpo⟩

/-- Successful rotate-check, but the selected stream has no open file: the
write is skipped and no error is returned. -/
theorem writeRecord_no_file (cfg : Config) (env : WEnv) (st : HState)
    (fs : FS) (r : Rec) (now : Nat)
    (he : (rotateIfNeededLocked cfg env.rot st fs now).err = none)
    (hf : (if levelWarn ≤ r.level
           then (rotateIfNeededLocked cfg env.rot st fs now).st.warnFile
           else (rotateIfNeededLocked cfg env.rot st fs now).st.infoFile)
          = none) :
    writeRecord cfg env st fs r now =
      { st := (rotateIfNeededLocked cfg env.rot st fs now).st,
        fs := (rotateIfNeededLocked cfg env.rot st fs now).fs,
        err := none,
        console := if cfg.consoleEnabled then
            (if cfg.consoleColored then [colorLine r] else [r.line]) else [],
        written := [] } := by
  by_cases hlev : levelWarn ≤ r.level
  · rw [if_pos hlev] at hf
    simp only [writeRecord]
    rw [he]
    simp [hlev, hf]
  · rw [if_neg hlev] at hf
    simp only [writeRecord]
    rw [he]
    simp [hlev, hf]

/-- One writer-loop iteration preserves the pipeline invariant, advancing
its clock bound to the iteration's `time.Now()` instant. -/
theorem writeRecord_preserves_inv (cfg : Config) (env : WEnv) (st : HState)
    (fs : FS) (r : Rec) (b now : Nat)
    (hinv : Inv cfg st fs b) (hb : b < now)
    (hfresh_i : ∀ mode, cfg.rotate = some mode →
      buildBase cfg mode now false ∈ fs.fileNames →
        st.infoFile = some (buildBase cfg mode now false))
    (hfresh_w : ∀ mode, cfg.rotate = some mode →
      buildBase cfg mode now true ∈ fs.fileNames →
        st.warnFile = some (buildBase cfg mode now true)) :
    Inv cfg (writeRecord cfg env st fs r now).st
      (writeRecord cfg env st fs r now).fs now := by
  have hrot := rotate_preserves_inv cfg env.rot st fs b now hinv hb
    hfresh_i hfresh_w
  cases herr : (rotateIfNeededLocked cfg env.rot st fs now).err with
  | some e =>
    rw [writeRecord_rot_err cfg env st fs r now e herr]
    exact hrot
  | none =>
    by_cases hwr : env.writeOk = true
    swap
    · have hwr2 : env.writeOk = false := by
        cases h : env.writeOk
        · rfl
        · exact absurd h hwr
      cases hf : (if levelWarn ≤ r.level
          then (rotateIfNeededLocked cfg env.rot st fs now).st.warnFile
          else (rotateIfNeededLocked cfg env.rot st fs now).st.infoFile) with
      | none =>
        rw [writeRecord_no_file cfg env st fs r now herr hf]
        exact hrot
      | some name =>
        rw [writeRecord_write_fail cfg env st fs r now name herr hf hwr2]
        exact hrot
    · obtain ⟨h1, h2, h3, h4, h5⟩ := hrot
      by_cases hlev : levelWarn ≤ r.level
      · cases hfw : (rotateIfNeededLocked cfg env.rot st fs now).st.warnFile
          with
        | none =>
          rw [writeRecord_no_file cfg env st fs r now herr
            (by rw [if_pos hlev]; exact hfw)]
          exact ⟨h1, h2, h3, h4, h5⟩
        | some name =>
          rw [writeRecord_warn_write cfg env st fs r now name herr hlev
            hfw hwr]
          rw [hfw] at h5
          have hpatn : matchesInfo cfg name = false := by
            have h5c := h5
            simp only [streamOk, Bool.and_eq_true, Bool.not_eq_true'] at h5c
            exact h5c.2
          refine ⟨h1, pairwise_writeFile h2,
            bound_writeFile h3 (le_refl now), ?_, ?_⟩
          · exact streamOk_writeFile_other hpatn h4
          · show streamOk
              ((rotateIfNeededLocked cfg env.rot st fs now).fs.writeFile
                name now)
              (rotateIfNeededLocked cfg env.rot st fs now).st.warnFile
              (cfg.appName ++ ".wf.log") (matchesWarn cfg)
              (matchesInfo cfg) = true
            rw [hfw]
            exact streamOk_writeFile_self h3 h5
      · cases hfi : (rotateIfNeededLocked cfg env.rot st fs now).st.infoFile
          with
        | none =>
          rw [writeRecord_no_file cfg env st fs r now herr
            (by rw [if_neg hlev]; exact hfi)]
          exact ⟨h1, h2, h3, h4, h5⟩
        | some name =>
          rw [writeRecord_info_write cfg env st fs r now name herr hlev
            hfi hwr]
          rw [hfi] at h4
          have hpatn : matchesWarn cfg name = false := by
            have h4c := h4
            simp only [streamOk, Bool.and_eq_true, Bool.not_eq_true'] at h4c
            exact h4c.2
          refine ⟨h1, pairwise_writeFile h2,
            bound_writeFile h3 (le_refl now), ?_, ?_⟩
          · show streamOk
              ((rotateIfNeededLocked cfg env.rot st fs now).fs.writeFile
                name now)
              (rotateIfNeededLocked cfg env.rot st fs now).st.infoFile
              (cfg.appName ++ ".log") (matchesInfo cfg)
              (matchesWarn cfg) = true
            rw [hfi]
            exact streamOk_writeFile_self h3 h4
          · exact streamOk_writeFile_other hpatn h5

/-- The writer loop preserves the invariant along any `TraceOk` trace. -/
theorem runLoop_preserves_inv (cfg : Config) :
    ∀ (trace : List StepIn) (b : Nat) (st : HState) (fs : FS),
      Inv cfg st fs b → TraceOk cfg b st fs trace →
      Inv cfg (runLoop cfg st fs trace).1 (runLoop cfg st fs trace).2
        (lastBound b trace)
  | [], _, _, _, hinv, _ => hinv
  | s :: rest, b, st, fs, hinv, htr => by
    cases htr with
    | cons _ _ _ _ _ hfresh htr2 =>
      have hsf := hfresh
      simp only [stepFresh, Bool.and_eq_true, decide_eq_true_eq] at hsf
      obtain ⟨hb, hrest⟩ := hsf
      have hfi : ∀ mode, cfg.rotate = some mode →
          buildBase cfg mode s.now false ∈ fs.fileNames →
            st.infoFile = some (buildBase cfg mode s.now false) := by
        intro mode hm hmem
        rw [hm] at hrest
        have hrest2 : ((!(fs.fileNames.contains
              (buildBase cfg mode s.now false))
            || st.infoFile == some (buildBase cfg mode s.now false)) &&
          (!(fs.fileNames.contains (buildBase cfg mode s.now true))
            || st.warnFile == some (buildBase cfg mode s.now true)))
            = true := hrest
        simp only [Bool.and_eq_true] at hrest2
        have hA := hrest2.1
        have hc : fs.fileNames.contains (buildBase cfg mode s.now false)
            = true := List.elem_eq_true_of_mem hmem
        rw [hc] at hA
        simp only [Bool.not_true, Bool.false_or, beq_iff_eq] at hA
        exact hA
      have hfw : ∀ mode, cfg.rotate = some mode →
          buildBase cfg mode s.now true ∈ fs.fileNames →
            st.warnFile = some (buildBase cfg mode s.now true) := by
        intro mode hm hmem
        rw [hm] at hrest
        have hrest2 : ((!(fs.fileNames.contains
              (buildBase cfg mode s.now false))
            || st.infoFile == some (buildBase cfg mode s.now false)) &&
          (!(fs.fileNames.contains (buildBase cfg mode s.now true))
            || st.warnFile == some (buildBase cfg mode s.now true)))
            = true := hrest
        simp only [Bool.and_eq_true] at hrest2
        have hB := hrest2.2
        have hc : fs.fileNames.contains (buildBase cfg mode s.now true)
            = true := List.elem_eq_true_of_mem hmem
        rw [hc] at hB
        simp only [Bool.not_true, Bool.false_or, beq_iff_eq] at hB
        exact hB
      have hnext := writeRecord_preserves_inv cfg s.env st fs s.record b
        s.now hinv hb hfi hfw
      exact runLoop_preserves_inv cfg rest s.now _ _ hnext htr2

/-- A strictly-newest file in particular exists in the directory. -/
theorem strictNewest_mem {fs : FS} {pat : String → Bool} {f : String}
    (h : strictNewest fs pat f = true) : f ∈ fs.fileNames := by
  unfold strictNewest at h
  cases ht : fs.timeOf f with
  | none =>
    rw [ht] at h
    exact Bool.noConfusion h
  | some tf =>
    have ht2 : ((fs.files.find? fun p => p.1 == f).map (·.2)) = some tf := ht
    rcases Option.map_eq_some'.mp ht2 with ⟨q, hfind, hq2⟩
    have hq := List.find?_some hfind
    have hqmem := List.mem_of_find?_eq_some hfind
    have hq1 : q.1 = f := by simpa using hq
    rw [FS.fileNames, List.mem_map]
    exact ⟨q, hqmem, hq1⟩

/-! ### C7 — handle and symlink invariant -/

/-- C7 (confirmed): starting from any state satisfying the pipeline
invariant (in particular the initial state with no files and no handles),
after any writer-loop trace whose steps have a monotone clock and
collision-free fresh names (`TraceOk`), the open OS handles are exactly the
streams' current files — so at most one handle exists per stream — and
whenever a stream has a current file (which after any successful rotation
it does), that stream's "latest" symlink points at exactly that file, and
the file still exists in the directory: the symlink is never stale and
never dangles, across arbitrarily many rotations. -/
theorem pipeline_invariant (cfg : Config) (st0 : HState) (fs0 : FS) (b : Nat)
    (trace : List StepIn)
    (hinv : Inv cfg st0 fs0 b) (htr : TraceOk cfg b st0 fs0 trace) :
    (((runLoop cfg st0 fs0 trace).2.openHandles : Multiset String)
        = ↑((runLoop cfg st0 fs0 trace).1.infoFile.toList
            ++ (runLoop cfg st0 fs0 trace).1.warnFile.toList))
    ∧ (∀ f, (runLoop cfg st0 fs0 trace).1.infoFile = some f →
        (runLoop cfg st0 fs0 trace).2.linkOf (cfg.appName ++ ".log")
            = some f
          ∧ f ∈ (runLoop cfg st0 fs0 trace).2.fileNames)
    ∧ (∀ f, (runLoop cfg st0 fs0 trace).1.warnFile = some f →
        (runLoop cfg st0 fs0 trace).2.linkOf (cfg.appName ++ ".wf.log")
            = some f
          ∧ f ∈ (runLoop cfg st0 fs0 trace).2.fileNames) := by
  have hI := runLoop_preserves_inv cfg trace b st0 fs0 hinv htr
  refine ⟨hI.1, ?_, ?_⟩
  · intro f hf
    have h4 := hI.2.2.2.1
    rw [hf] at h4
    simp only [streamOk, Bool.and_eq_true, beq_iff_eq] at h4
    exact ⟨h4.1.1.2, strictNewest_mem h4.1.1.1⟩
  · intro f hf
    have h5 := hI.2.2.2.2
    rw [hf] at h5
    simp only [streamOk, Bool.and_eq_true, beq_iff_eq] at h5
    exact ⟨h5.1.1.2, strictNewest_mem h5.1.1.1⟩

/-- C7 witness: a two-step trace from the empty state — the second step in
a fresh hour, so both streams rotate twice in total. -/
theorem pipeline_invariant_witness :
    (Inv cfgW HState.init fsEmpty 0
      ∧ TraceOk cfgW 0 HState.init fsEmpty [stepW1, stepW2])
    ∧ ((((runLoop cfgW HState.init fsEmpty [stepW1, stepW2]).2.openHandles :
          Multiset String)
        = ↑((runLoop cfgW HState.init fsEmpty
              [stepW1, stepW2]).1.infoFile.toList
            ++ (runLoop cfgW HState.init fsEmpty
              [stepW1, stepW2]).1.warnFile.toList))
      ∧ (∀ f, (runLoop cfgW HState.init fsEmpty
              [stepW1, stepW2]).1.infoFile = some f →
          (runLoop cfgW HState.init fsEmpty [stepW1, stepW2]).2.linkOf
              (cfgW.appName ++ ".log") = some f
            ∧ f ∈ (runLoop cfgW HState.init fsEmpty
                [stepW1, stepW2]).2.fileNames)
      ∧ (∀ f, (runLoop cfgW HState.init fsEmpty
              [stepW1, stepW2]).1.warnFile = some f →
          (runLoop cfgW HState.init fsEmpty [stepW1, stepW2]).2.linkOf
              (cfgW.appName ++ ".wf.log") = some f
            ∧ f ∈ (runLoop cfgW HState.init fsEmpty
                [stepW1, stepW2]).2.fileNames)) := by
  have hinv : Inv cfgW HState.init fsEmpty 0 :=
    ⟨rfl, List.Pairwise.nil, by simp [fsEmpty], rfl, rfl⟩
  have htr : TraceOk cfgW 0 HState.init fsEmpty [stepW1, stepW2] :=
    TraceOk.cons 0 _ _ _ _ (by decide)
      (TraceOk.cons stepW1.now _ _ _ _ (by decide) (TraceOk.nil _ _ _))
  exact ⟨⟨hinv, htr⟩,
    pipeline_invariant cfgW HState.init fsEmpty 0 [stepW1, stepW2] hinv htr⟩

/-! ### C2 — ingestion enqueue -/

/-- C2 (confirmed): `Handle` never returns an error for any queue state; with
room left the record is appended at the tail (FIFO) and nothing is dropped;
when the queue is full the record is dropped, a diagnostic line is emitted,
and the call still succeeds.  The producer never waits: `Handle` is a total
function of the pre-state — the `select` either completes the buffered send
immediately or takes the `default` branch. -/
theorem Handle_wait_free (capacity : Int) (queue : List Rec) (r : Rec) :
    (Handle capacity queue r).err = none ∧
    ((queue.length : Int) < capacity →
      (Handle capacity queue r).queue = queue ++ [r] ∧
      (Handle capacity queue r).dropped = false ∧
      (Handle capacity queue r).diag = []) ∧
    (capacity ≤ (queue.length : Int) →
      (Handle capacity queue r).queue = queue ∧
      (Handle capacity queue r).dropped = true ∧
      (Handle capacity queue r).diag = ["log queue full, drop log"]) := by
  by_cases h : (queue.length : Int) < capacity
  · refine ⟨by simp [Handle, h], fun _ => by simp [Handle, h], fun hc => absurd h (by omega)⟩
  · refine ⟨by simp [Handle, h], fun hc => absurd hc h, fun _ => by simp [Handle, h]⟩

/-- Witness for C2 at capacity 1: an enqueue into an empty queue appends, an
enqueue into a full queue drops, and both return no error. -/
theorem Handle_wait_free_witness :
    (Handle 1 [] { level := 0, line := "a" }).queue = [{ level := 0, line := "a" }] ∧
    (Handle 1 [{ level := 0, line := "a" }] { level := 0, line := "b" }).dropped = true ∧
    (Handle 1 [{ level := 0, line := "a" }] { level := 0, line := "b" }).err = none :=
  ⟨((Handle_wait_free 1 [] _).2.1 (by decide)).1,
   ((Handle_wait_free 1 [_] _).2.2 (by decide)).2.1,
   (Handle_wait_free 1 [_] _).1⟩

/-! ### C9 — caller function-name trimming -/

/-- C9 counterexample: on a fully qualified method name the resolver keeps
the receiver-type qualifier; `pkg.(*Server).Serve` yields `(*Server).Serve`,
not the bare identifier `Serve` the claim requires.  (The source's own comment
documents exactly this behavior.) -/
theorem trimFuncName_keeps_receiver :
    trimFuncName "github.com/imattdu/orbit/service.(*Server).Serve"
      = "(*Server).Serve" ∧
    trimFuncName "github.com/imattdu/orbit/service.(*Server).Serve"
      ≠ "Serve" := by
  constructor
  · rfl
  · decide

/-- C9 amended: for a qualified name `path/pkg.rest` — where `pkg` contains
neither `/` nor `.` and `rest` (nonempty) contains no `/` — the resolver
strips the package/namespace qualifier only: everything through the last `/`
and then through the first following dot.  The receiver-type qualifier is
part of `rest` and is retained, so `pkg.(*Server).Serve` yields
`(*Server).Serve` while a plain `pkg.Serve` yields `Serve`. -/
theorem trimFuncName_strips_package (p q r : List Char)
    (hq1 : '/' ∉ q) (hq2 : '.' ∉ q) (hr : '/' ∉ r) (hrne : r ≠ []) :
    trimFuncName (String.mk (p ++ '/' :: (q ++ '.' :: r))) = String.mk r := by
  have hslash : '/' ∉ q ++ '.' :: r := by
    simp only [List.mem_append, List.mem_cons, not_or]
    exact ⟨hq1, by decide, hr⟩
  have h1 : goLastIndexChar (p ++ '/' :: (q ++ '.' :: r)) '/' = some p.length :=
    goLastIndexChar_append hslash
  have h2 : (p ++ '/' :: (q ++ '.' :: r)).drop (p.length + 1) = q ++ '.' :: r := by
    rw [show p ++ '/' :: (q ++ '.' :: r) = (p ++ ['/']) ++ (q ++ '.' :: r) by simp,
      show p.length + 1 = (p ++ ['/']).length by simp, List.drop_left]
  have h3 : goIndexChar (q ++ '.' :: r) '.' = some q.length :=
    goIndexChar_append hq2
  have h4 : (q ++ '.' :: r).drop (q.length + 1) = r := by
    rw [show q ++ '.' :: r = (q ++ ['.']) ++ r by simp,
      show q.length + 1 = (q ++ ['.']).length by simp, List.drop_left]
  have h5 : q.length + 1 < (q ++ '.' :: r).length := by
    simp only [List.length_append, List.length_cons]
    have : 0 < r.length := List.length_pos.mpr hrne
    omega
  simp only [trimFuncName, h1, h2, h3, h4, h5, if_pos]

/-- Witness for the amended C9 theorem: `pkg/service.(*Server).Serve` trims to
`(*Server).Serve`. -/
theorem trimFuncName_strips_package_witness :
    trimFuncName (String.mk ("pkg".data ++ '/' :: ("service".data ++ '.' :: "(*Server).Serve".data)))
      = String.mk "(*Server).Serve".data :=
  trimFuncName_strips_package "pkg".data "service".data "(*Server).Serve".data
    (by decide) (by decide) (by decide) (by decide)

/-! ### C6 — encoder message handling -/

/-- C6 (confirmed): the attribute set produced by the encoder contains, for a
structured `errorx.Error` message, its numeric code, code message, error-type
label, service label, success flag, every custom field, and — when the
override message is non-empty — the override message under `msg`; for a plain
error, the rendered text under `error`; for any other value, the value itself
under `msg`. -/
theorem encodeLog_message_fields (tag : String) (c : CallerInfo)
    (span : Option SpanInfo) (msg : MsgVal) (bag : List (String × AttrVal))
    (kv : List AttrVal) :
    (∀ e, msg = .errx e →
      ("code", AttrVal.int e.codeE.code) ∈ encodeLog tag c span msg bag kv ∧
      ("code_msg", AttrVal.str e.codeE.message) ∈ encodeLog tag c span msg bag kv ∧
      ("err_type", AttrVal.str e.typeE.message) ∈ encodeLog tag c span msg bag kv ∧
      ("service", AttrVal.str e.service.message) ∈ encodeLog tag c span msg bag kv ∧
      ("success", AttrVal.bool e.success) ∈ encodeLog tag c span msg bag kv ∧
      (∀ fld ∈ e.fields, fld ∈ encodeLog tag c span msg bag kv) ∧
      (e.message ≠ "" →
        ("msg", AttrVal.str e.message) ∈ encodeLog tag c span msg bag kv)) ∧
    (∀ t, msg = .plainError t →
      ("error", AttrVal.str t) ∈ encodeLog tag c span msg bag kv) ∧
    (∀ v, msg = .other v → ("msg", v) ∈ encodeLog tag c span msg bag kv) := by
  have lift : ∀ x : String × AttrVal,
      x ∈ msgAttrs msg → x ∈ encodeLog tag c span msg bag kv := by
    intro x h
    unfold encodeLog
    exact List.mem_append.mpr (Or.inl (List.mem_append.mpr (Or.inl
      (List.mem_append.mpr (Or.inr h)))))
  refine ⟨fun e he => ?_, fun t ht => lift _ (by simp [ht, msgAttrs]),
    fun v hv => lift _ (by simp [hv, msgAttrs])⟩
  subst he
  exact ⟨lift _ (by simp [msgAttrs]), lift _ (by simp [msgAttrs]),
    lift _ (by simp [msgAttrs]), lift _ (by simp [msgAttrs]),
    lift _ (by simp [msgAttrs]),
    fun fld hf => lift _ (by simp only [msgAttrs, List.mem_append]; tauto),
    fun hm => lift _ (by simp [msgAttrs, hm])⟩

/-- Witness for C6: a concrete structured error with one custom field and a
non-empty override message produces all the required attributes. -/
theorem encodeLog_message_fields_witness :
    ("code", AttrVal.int 7) ∈ encodeLog "t" ⟨"f.go", 3, "Fn"⟩ none
      (.errx ⟨⟨7, "cm"⟩, ⟨0, "sys"⟩, false, ⟨1, "svc"⟩, "ov", [("k", .any "v")]⟩) [] [] ∧
    ("msg", AttrVal.str "ov") ∈ encodeLog "t" ⟨"f.go", 3, "Fn"⟩ none
      (.errx ⟨⟨7, "cm"⟩, ⟨0, "sys"⟩, false, ⟨1, "svc"⟩, "ov", [("k", .any "v")]⟩) [] [] ∧
    ("k", AttrVal.any "v") ∈ encodeLog "t" ⟨"f.go", 3, "Fn"⟩ none
      (.errx ⟨⟨7, "cm"⟩, ⟨0, "sys"⟩, false, ⟨1, "svc"⟩, "ov", [("k", .any "v")]⟩) [] [] :=
  ⟨((encodeLog_message_fields "t" ⟨"f.go", 3, "Fn"⟩ none _ [] []).1 _ rfl).1,
   ((encodeLog_message_fields "t" ⟨"f.go", 3, "Fn"⟩ none _ [] []).1 _ rfl).2.2.2.2.2.2
     (by decide),
   ((encodeLog_message_fields "t" ⟨"f.go", 3, "Fn"⟩ none _ [] []).1 _ rfl).2.2.2.2.2.1
     _ (by simp)⟩

/-! ### C8 — unconfigured rotation policy -/

/-- C8 (code bug): when the rotation policy is left unconfigured
(`Rotate == nil`), `newHandler`'s defaulting touches only `AppName`,
`QueueSize` and `LogDir`, and the very first rotate-check dereferences the nil
policy pointer (`switch *h.cfg.Rotate`) — construction faults instead of
falling back to the Hourly policy the specification (and the repository's
single-stream handler variant, which defaults its `switch` to hourly)
intends. -/
theorem nil_rotate_policy_faults (cfg : Config) (h : cfg.rotate = none)
    (env : OpenEnv) (st : HState) (fs : FS) (now : Nat) :
    (rotateIfNeededLocked cfg env st fs now).err = some PErr.nilDeref ∧
    newHandlerModel cfg env fs now = .error PErr.nilDeref := by
  have hd : (applyDefaults cfg).rotate = none := by
    simp only [applyDefaults]
    split <;> split <;> split <;> simp_all
  constructor
  · simp [rotateIfNeededLocked, h]
  · simp [newHandlerModel, rotateIfNeededLocked, hd]

/-- Witness for C8: a concrete configuration with every other field populated
but `rotate` unset faults at construction. -/
theorem nil_rotate_policy_faults_witness :
    newHandlerModel
      { appName := "app", level := 0, logDir := "logs", consoleEnabled := true,
        consoleColored := false, rotate := none, maxFileSizeMB := 10,
        maxBackups := 3, queueSize := 100 }
      { mkdirOk := true, infoOpenOk := true, warnOpenOk := true, readDirOk := true }
      { files := [], links := [], openHandles := [] } 77
      = .error PErr.nilDeref :=
  (nil_rotate_policy_faults _ rfl _ HState.init _ 77).2

/-! ### C3 — file-write failure versus console mirroring -/

/-- C3 counterexample: with console mirroring enabled and the file write of
the encoded line failing, nothing is printed to the console: `writeRecord`
returns the write error before reaching the console branch, so a file-write
failure suppresses console mirroring for that event. -/
theorem write_failure_not_mirrored :
    cfgW.consoleEnabled = true ∧
    (writeRecord cfgW { rot := envAllOk, writeOk := false } HState.init fsEmpty
        { level := 0, line := "hello\n" } (2 * nsPerHour)).err
      = some PErr.writeError ∧
    (writeRecord cfgW { rot := envAllOk, writeOk := false } HState.init fsEmpty
        { level := 0, line := "hello\n" } (2 * nsPerHour)).console = [] := by
  refine ⟨rfl, ?_, ?_⟩ <;> decide

/-- C3 amended: when the stream's file is open after a successful
rotate-check and the write of the encoded line fails, the worker returns the
error with NOTHING printed to the console and nothing written — a file-write
failure loses the event for both file output and console mirroring (console
mirroring happens only after the file write, so the console never suppresses
a file write, but a failed file write does suppress the console).  The error
is reported to the writer loop, which continues with the next event. -/
theorem write_failure_loses_event (cfg : Config) (env : WEnv) (st : HState)
    (fs : FS) (r : Rec) (now : Nat) (name : String)
    (he : (rotateIfNeededLocked cfg env.rot st fs now).err = none)
    (hf : (if levelWarn ≤ r.level
           then (rotateIfNeededLocked cfg env.rot st fs now).st.warnFile
           else (rotateIfNeededLocked cfg env.rot st fs now).st.infoFile)
          = some name) :
    (env.writeOk = false →
      (writeRecord cfg env st fs r now).err = some PErr.writeError ∧
      (writeRecord cfg env st fs r now).console = [] ∧
      (writeRecord cfg env st fs r now).written = [] ∧
      (writeRecord cfg env st fs r now).st
        = (rotateIfNeededLocked cfg env.rot st fs now).st) ∧
    (env.writeOk = true →
      (writeRecord cfg env st fs r now).console
        = (if cfg.consoleEnabled then
             (if cfg.consoleColored then [colorLine r] else [r.line]) else []) ∧
      (writeRecord cfg env st fs r now).written = [(name, r.line)]) ∧
    (∀ s0 : StepIn, ∀ rest : List StepIn,
      runLoop cfg st fs (s0 :: rest)
        = runLoop cfg (writeRecord cfg s0.env st fs s0.record s0.now).st
            (writeRecord cfg s0.env st fs s0.record s0.now).fs rest) := by
  refine ⟨fun hwr => ?_, fun hwr => ?_, fun s0 rest => rfl⟩
  · rw [writeRecord_write_fail cfg env st fs r now name he hf hwr]
    exact ⟨rfl, rfl, rfl, rfl⟩
  · by_cases hlev : levelWarn ≤ r.level
    · rw [if_pos hlev] at hf
      rw [writeRecord_warn_write cfg env st fs r now name he hlev hf hwr]
      exact ⟨rfl, rfl⟩
    · rw [if_neg hlev] at hf
      rw [writeRecord_info_write cfg env st fs r now name he hlev hf hwr]
      exact ⟨rfl, rfl⟩

/-- Witness for the amended C3 theorem: a failing write loses the event, the
same event with a succeeding write reaches the file. -/
theorem write_failure_loses_event_witness :
    (writeRecord cfgW { rot := envAllOk, writeOk := false } HState.init fsEmpty
        { level := 0, line := "x\n" } (2 * nsPerHour)).written = [] ∧
    (writeRecord cfgW { rot := envAllOk, writeOk := true } HState.init fsEmpty
        { level := 0, line := "x\n" } (2 * nsPerHour)).written
      = [("app-2.log", "x\n")] :=
  ⟨((write_failure_loses_event cfgW { rot := envAllOk, writeOk := false }
      HState.init fsEmpty { level := 0, line := "x\n" } (2 * nsPerHour)
      "app-2.log" (by decide) (by decide)).1 rfl).2.2.1,
   ((write_failure_loses_event cfgW { rot := envAllOk, writeOk := true }
      HState.init fsEmpty { level := 0, line := "x\n" } (2 * nsPerHour)
      "app-2.log" (by decide) (by decide)).2.1 rfl).2⟩

/-! ### C4 — severity split between the two streams -/

/-- C4 (confirmed): under the dual-stream configuration, after a successful
rotate-check both streams are open; an event at or above the warn threshold
is written only to the elevated stream's file (never to the normal stream's
file), an event below it only to the normal stream's file, and only the
target stream's cumulative byte counter advances — by exactly the bytes
written to it. -/
theorem severity_split (cfg : Config) (mode : RotateMode) (env : WEnv)
    (st : HState) (fs : FS) (r : Rec) (now : Nat)
    (hmode : cfg.rotate = some mode)
    (he : (rotateIfNeededLocked cfg env.rot st fs now).err = none)
    (hwr : env.writeOk = true) :
    ∃ fi fw,
      (rotateIfNeededLocked cfg env.rot st fs now).st.infoFile = some fi ∧
      (rotateIfNeededLocked cfg env.rot st fs now).st.warnFile = some fw ∧
      (levelWarn ≤ r.level →
        (writeRecord cfg env st fs r now).written = [(fw, r.line)] ∧
        (fi ≠ fw → ∀ l, (fi, l) ∉ (writeRecord cfg env st fs r now).written) ∧
        (writeRecord cfg env st fs r now).st.warnSize
          = (rotateIfNeededLocked cfg env.rot st fs now).st.warnSize
            + (r.line.length : Int) ∧
        (writeRecord cfg env st fs r now).st.infoSize
          = (rotateIfNeededLocked cfg env.rot st fs now).st.infoSize) ∧
      (¬ levelWarn ≤ r.level →
        (writeRecord cfg env st fs r now).written = [(fi, r.line)] ∧
        (fw ≠ fi → ∀ l, (fw, l) ∉ (writeRecord cfg env st fs r now).written) ∧
        (writeRecord cfg env st fs r now).st.infoSize
          = (rotateIfNeededLocked cfg env.rot st fs now).st.infoSize
            + (r.line.length : Int) ∧
        (writeRecord cfg env st fs r now).st.warnSize
          = (rotateIfNeededLocked cfg env.rot st fs now).st.warnSize) := by
  obtain ⟨fi, fw, hfi, hfw⟩ :=
    rotate_success_opens cfg mode env.rot st fs now hmode he
  refine ⟨fi, fw, hfi, hfw, fun hlev => ?_, fun hlev => ?_⟩
  · rw [writeRecord_warn_write cfg env st fs r now fw he hlev hfw hwr]
    exact ⟨rfl, fun hne l => by simp [hne], rfl, rfl⟩
  · rw [writeRecord_info_write cfg env st fs r now fi he hlev hfi hwr]
    exact ⟨rfl, fun hne l => by simp [hne], rfl, rfl⟩

/-- Witness for C4: a warn-level event lands only in the `.wf` file, an
info-level event only in the plain file. -/
theorem severity_split_witness :
    (writeRecord cfgW { rot := envAllOk, writeOk := true } HState.init fsEmpty
        { level := 4, line := "w\n" } (2 * nsPerHour)).written
      = [("app.wf-2.log", "w\n")] ∧
    (writeRecord cfgW { rot := envAllOk, writeOk := true } HState.init fsEmpty
        { level := 0, line := "i\n" } (2 * nsPerHour)).written
      = [("app-2.log", "i\n")] := by
  constructor
  · obtain ⟨fi, fw, hfi, hfw, hwarn, -⟩ :=
      severity_split cfgW .hourly { rot := envAllOk, writeOk := true }
        HState.init fsEmpty { level := 4, line := "w\n" } (2 * nsPerHour)
        rfl (by decide) rfl
    have hfww : fw = "app.wf-2.log" :=
      Option.some.inj (hfw.symm.trans (by decide))
    rw [(hwarn (by decide)).1, hfww]
  · obtain ⟨fi, fw, hfi, hfw, -, hinfo⟩ :=
      severity_split cfgW .hourly { rot := envAllOk, writeOk := true }
        HState.init fsEmpty { level := 0, line := "i\n" } (2 * nsPerHour)
        rfl (by decide) rfl
    have hfii : fi = "app-2.log" :=
      Option.some.inj (hfi.symm.trans (by decide))
    rw [(hinfo (by decide)).1, hfii]

/-! ### C10 — rotation is not atomic across the two streams -/

/-- C10 (confirmed): when a single hourly rotate-check must rotate both
streams (epoch change, both files open) and opening the new info file
succeeds while opening the new warn file fails, the check returns the error
with the info stream already switched to the new file and its symlink
updated, while the warn stream is left with no open file — its old handle
closed, no new handle acquired.  The triggering event is then written to
neither file and not mirrored.  At the next event inside the same hour only
the warn stream's open is retried: the decision rotates the warn stream and
not the info stream. -/
theorem partial_rotation_failure (cfg : Config) (env : WEnv) (st : HState)
    (fs : FS) (r : Rec) (now now2 : Nat) (fi0 fw0 : String)
    (hmode : cfg.rotate = some .hourly)
    (hep : st.curHr ≠ some (hourOf now))
    (hfi : st.infoFile = some fi0) (hfw : st.warnFile = some fw0)
    (hmk : env.rot.mkdirOk = true) (hio : env.rot.infoOpenOk = true)
    (hwo : env.rot.warnOpenOk = false)
    (hhr : hourOf now2 = hourOf now) :
    (rotateIfNeededLocked cfg env.rot st fs now).err = some PErr.osError ∧
    (rotateIfNeededLocked cfg env.rot st fs now).st.infoFile
      = some (buildBase cfg .hourly now false) ∧
    FS.linkOf (rotateIfNeededLocked cfg env.rot st fs now).fs
        (cfg.appName ++ ".log")
      = some (buildBase cfg .hourly now false) ∧
    (rotateIfNeededLocked cfg env.rot st fs now).st.warnFile = none ∧
    (rotateIfNeededLocked cfg env.rot st fs now).fs.openHandles
      = buildBase cfg .hourly now false
          :: ((fs.openHandles.erase fi0).erase fw0) ∧
    writeRecord cfg env st fs r now
      = { st := (rotateIfNeededLocked cfg env.rot st fs now).st,
          fs := (rotateIfNeededLocked cfg env.rot st fs now).fs,
          err := some PErr.osError, console := [], written := [] } ∧
    (rotateDecision .hourly cfg
        (rotateIfNeededLocked cfg env.rot st fs now).st now2).needNew = false ∧
    (rotateDecision .hourly cfg
        (rotateIfNeededLocked cfg env.rot st fs now).st now2).needWarnNew
      = true := by
  have hd := rotateDecision_hourly_eq cfg st now
  rw [if_pos hep] at hd
  have key : rotateIfNeededLocked cfg env.rot st fs now =
      { st := { infoFile := some (buildBase cfg .hourly now false),
                warnFile := none, infoSize := 0, warnSize := 0,
                curHr := some (hourOf now) },
        fs := (((fs.closeFile fi0).closeFile fw0).openCreate
                (buildBase cfg .hourly now false) now).setLink
                (cfg.appName ++ ".log") (buildBase cfg .hourly now false),
        err := some PErr.osError } := by
    unfold rotateIfNeededLocked
    rw [hmode]
    simp only [hd, hfi, hfw, hmk, hio, hwo]
    simp
  refine ⟨by rw [key], by rw [key], ?_, by rw [key], ?_, ?_, ?_, ?_⟩
  · rw [key]
    simp [FS.linkOf, FS.setLink]
  · rw [key]
    simp [FS.setLink, FS.openCreate, FS.closeFile]
  · rw [writeRecord_rot_err cfg env st fs r now PErr.osError (by rw [key])]
  · rw [key, rotateDecision_hourly_eq]
    simp [hhr]
  · rw [key, rotateDecision_hourly_eq]
    simp [hhr]

/-- Witness for C10: both streams open at hour 1, the clock moves to hour 2,
the warn open fails; the info stream is switched and the warn stream is
closed, and the next check in hour 2 retries only the warn stream. -/
theorem partial_rotation_failure_witness :
    (rotateIfNeededLocked cfgW
        { mkdirOk := true, infoOpenOk := true, warnOpenOk := false,
          readDirOk := true }
        { infoFile := some "app-1.log", warnFile := some "app.wf-1.log",
          infoSize := 5, warnSize := 7, curHr := some 1 }
        { files := [("app-1.log", 3), ("app.wf-1.log", 4)], links := [],
          openHandles := ["app-1.log", "app.wf-1.log"] }
        (2 * nsPerHour)).st.warnFile = none ∧
    (rotateDecision .hourly cfgW
        (rotateIfNeededLocked cfgW
          { mkdirOk := true, infoOpenOk := true, warnOpenOk := false,
            readDirOk := true }
          { infoFile := some "app-1.log", warnFile := some "app.wf-1.log",
            infoSize := 5, warnSize := 7, curHr := some 1 }
          { files := [("app-1.log", 3), ("app.wf-1.log", 4)], links := [],
            openHandles := ["app-1.log", "app.wf-1.log"] }
          (2 * nsPerHour)).st (2 * nsPerHour + 9)).needWarnNew = true := by
  have h := partial_rotation_failure cfgW
    { rot := { mkdirOk := true, infoOpenOk := true, warnOpenOk := false,
               readDirOk := true }, writeOk := true }
    { infoFile := some "app-1.log", warnFile := some "app.wf-1.log",
      infoSize := 5, warnSize := 7, curHr := some 1 }
    { files := [("app-1.log", 3), ("app.wf-1.log", 4)], links := [],
      openHandles := ["app-1.log", "app.wf-1.log"] }
    { level := 0, line := "x\n" } (2 * nsPerHour) (2 * nsPerHour + 9)
    "app-1.log" "app.wf-1.log" rfl (by decide) rfl rfl rfl rfl rfl (by decide)
  exact ⟨h.2.2.2.1, h.2.2.2.2.2.2.2⟩

/-! ### C5 — retention sweep -/

/-- On a listing of plain files with readable modification times, the sweep's
considered set is exactly the prefix+suffix matches, in listing order. -/
theorem collectFiles_names (pre suf : String) (entries : List DirEntry)
    (hok : ∀ e ∈ entries, e.isDir = false ∧ e.info.isSome) :
    (collectFiles pre suf entries).map (·.name)
      = (entries.filter fun e =>
          goHasPrefix e.name pre && goHasSuffix e.name suf).map (·.name) := by
  induction entries with
  | nil => rfl
  | cons e es ih =>
    obtain ⟨hdir, hinfo⟩ := hok e (List.mem_cons_self e es)
    obtain ⟨t, ht⟩ := Option.isSome_iff_exists.mp hinfo
    have ih2 := ih fun x hx => hok x (List.mem_cons_of_mem e hx)
    by_cases hp : goHasPrefix e.name pre = true <;>
      by_cases hs : goHasSuffix e.name suf = true <;>
      simp only [collectFiles, List.filterMap_cons, List.filter_cons, hdir, ht,
        hp, hs, Bool.false_eq_true, if_false, if_true, not_and, Bool.and_self,
        Bool.and_false, Bool.false_and, Bool.and_true, Bool.true_and,
        Option.map_some, List.map_cons] <;>
      simp_all [collectFiles]

/-- C5 (confirmed): a retention sweep over a successful directory listing
considers exactly the non-directory entries whose name matches both the
stream prefix and the `.log` suffix (last conjunct, for listings of plain
files with readable modification times, matching `os.ReadDir` on a log
directory); orders them descending by last-modified time; deletes exactly
the files beyond the retention count (second conjunct) while the
`min(retention, count)` most recently modified files are kept (third and
fourth conjuncts: kept and deleted partition the matches, and every kept
file was modified strictly later than every deleted one).  A failed listing
is reported and deletes nothing that cycle (first conjunct). -/
theorem retention_sweep_spec (maxBackups : Nat) (pre : String)
    (entries : List DirEntry)
    (hdist : (collectFiles pre ".log" entries).Pairwise (fun a b => a.t ≠ b.t)) :
    cleanupOldFiles maxBackups pre none = [] ∧
    cleanupOldFiles maxBackups pre (some entries)
      = ((sortByTimeDesc (collectFiles pre ".log" entries)).drop maxBackups).map
          (·.name) ∧
    (collectFiles pre ".log" entries).Perm
      ((sortByTimeDesc (collectFiles pre ".log" entries)).take maxBackups
        ++ (sortByTimeDesc (collectFiles pre ".log" entries)).drop maxBackups) ∧
    ((sortByTimeDesc (collectFiles pre ".log" entries)).take maxBackups).length
      = min maxBackups (collectFiles pre ".log" entries).length ∧
    (∀ k ∈ (sortByTimeDesc (collectFiles pre ".log" entries)).take maxBackups,
      ∀ d ∈ (sortByTimeDesc (collectFiles pre ".log" entries)).drop maxBackups,
        d.t < k.t) ∧
    ((∀ e ∈ entries, e.isDir = false ∧ e.info.isSome) →
      (collectFiles pre ".log" entries).map (·.name)
        = (entries.filter fun e =>
            goHasPrefix e.name pre && goHasSuffix e.name ".log").map (·.name)) := by
  refine ⟨rfl, ?_, ?_, ?_, ?_, fun hok => collectFiles_names pre ".log" entries hok⟩
  · by_cases hlen : (collectFiles pre ".log" entries).length ≤ maxBackups
    · have hdrop : (sortByTimeDesc (collectFiles pre ".log" entries)).drop
          maxBackups = [] := by
        apply List.drop_eq_nil_of_le
        rw [sortByTimeDesc, List.length_insertionSort]
        exact hlen
      simp [cleanupOldFiles, hlen, hdrop]
    · simp [cleanupOldFiles, hlen, sortByTimeDesc]
  · rw [List.take_append_drop]
    exact (List.perm_insertionSort timeGE _).symm
  · rw [List.length_take, sortByTimeDesc, List.length_insertionSort]
  · intro k hk d hd
    have hsorted : (sortByTimeDesc (collectFiles pre ".log" entries)).Pairwise
        timeGE := List.sorted_insertionSort timeGE _
    have hne : (sortByTimeDesc (collectFiles pre ".log" entries)).Pairwise
        (fun a b => a.t ≠ b.t) :=
      ((List.perm_insertionSort timeGE _).pairwise_iff
        (fun h h2 => h h2.symm)).mpr hdist
    have hstrict : (sortByTimeDesc (collectFiles pre ".log" entries)).Pairwise
        (fun a b => b.t < a.t) :=
      (hsorted.and hne).imp fun h => lt_of_le_of_ne h.1 fun he => h.2 he.symm
    rw [← List.take_append_drop maxBackups
      (sortByTimeDesc (collectFiles pre ".log" entries))] at hstrict
    exact (List.pairwise_append.mp hstrict).2.2 k hk d hd

/-- Witness for C5: retention 2 over five rotated files of the same stream
with distinct modification times deletes exactly the three oldest. -/
theorem retention_sweep_spec_witness :
    cleanupOldFiles 2 "app-"
      (some [{ name := "app-1.log", isDir := false, info := some 10 },
             { name := "app-2.log", isDir := false, info := some 20 },
             { name := "app-3.log", isDir := false, info := some 30 },
             { name := "app-4.log", isDir := false, info := some 40 },
             { name := "app-5.log", isDir := false, info := some 50 }])
      = ["app-3.log", "app-2.log", "app-1.log"] :=
  ((retention_sweep_spec 2 "app-"
      [{ name := "app-1.log", isDir := false, info := some 10 },
       { name := "app-2.log", isDir := false, info := some 20 },
       { name := "app-3.log", isDir := false, info := some 30 },
       { name := "app-4.log", isDir := false, info := some 40 },
       { name := "app-5.log", isDir := false, info := some 50 }]
      (by decide)).2.1).trans (by decide)

end Orbit
